import Mathlib

/-!
Shallow embedding of the LithiumDevs/lithium-core event/channel bus
(`src/event-bus.js`) together with proofs of the frozen claims about it.

Modelling conventions:
* JS values flowing through channels and events are modelled by `Val`
  (with `undef` and `null` distinguished, as the source distinguishes
  `undefined` and `null`).
* The channel registry (`EventBus.channels`), the instant-event listener
  map (`EventBus.eventListeners`) and the listener `Set` objects are
  modelled as association lists together with explicit heaps addressed
  by numeric ids, so that JavaScript object identity (channel records
  captured by unsubscribe closures, `Set` objects captured by `unlisten`
  closures) is represented faithfully.
* Timers (`setTimeout`) are explicit records carrying their fire time;
  an explicit `fire` operation models the event loop running a due
  timer.  `clearTimeout` removes the pending record.
* Observable side effects (validation warnings, `onInit` / `onChange` /
  `onClear` hook invocations, subscriber callbacks, instant-event
  listener invocations) are recorded in an append-only trace.
* Hook callbacks whose exceptions are caught without affecting any
  other state (`onInit`, `onChange`, `onClear`, channel subscribers)
  are modelled as pure trace events.  Instant-event listeners are
  modelled with an explicit success function `ok : Val → Bool`, because
  in the source a listener that throws is caught *before*
  `hasExecuted = true` runs, which affects `once` semantics.
-/

/-- JavaScript-like values published on channels and emitted on events. -/
inductive Val where
  | undef : Val
  | null : Val
  | num : Int → Val
  | str : String → Val
  | boolv : Bool → Val
deriving DecidableEq, Repr

/-- Absent values in the sense of the source's `!== undefined && !== null` checks. -/
def Val.isAbsent : Val → Bool
  | .undef => true
  | .null => true
  | _ => false

/-- Storage modes of a channel: `'memory' | 'session' | 'persistent'`. -/
inductive StorageMode where
  | memory : StorageMode
  | session : StorageMode
  | persistent : StorageMode
deriving DecidableEq, Repr

/-- Observable side effects of the bus, recorded in order of occurrence. -/
inductive Ev where
  | warnValidation : Nat → String → Val → Ev
  | onInitFired : Nat → Val → Ev
  | onChangeFired : Nat → Val → Val → Ev
  | onClearFired : Nat → Ev
  | subscriberCalled : Nat → Nat → Val → Ev
  | listenerCalled : Nat → Nat → Val → Bool → Ev
deriving DecidableEq, Repr

/-- Lookup in an association list (JS `Map.get`). -/
def alook {α β : Type} [DecidableEq α] (k : α) : List (α × β) → Option β
  | [] => none
  | (k', v) :: rest => if k' = k then some v else alook k rest

/-- Update/insert in an association list (JS `Map.set`): replaces in place,
appends if absent, preserving insertion order. -/
def aset {α β : Type} [DecidableEq α] (k : α) (v : β) : List (α × β) → List (α × β)
  | [] => [(k, v)]
  | (k', v') :: rest => if k' = k then (k, v) :: rest else (k', v') :: aset k v rest

/-- Deletion from an association list (JS `Map.delete`).  Maps built through
`aset` never hold duplicate keys, so removing every binding of the key is
equivalent to removing the single one and keeps the lemmas unconditional. -/
def adel {α β : Type} [DecidableEq α] (k : α) : List (α × β) → List (α × β)
  | [] => []
  | (k', v') :: rest => if k' = k then adel k rest else (k', v') :: adel k rest

theorem alook_aset_self {α β : Type} [DecidableEq α] (k : α) (v : β) (l : List (α × β)) :
    alook k (aset k v l) = some v := by
  induction l with
  | nil => simp [aset, alook]
  | cons hd tl ih =>
    by_cases h : hd.1 = k
    · simp [aset, h, alook]
    · simp [aset, h, alook, ih]

theorem alook_aset_ne {α β : Type} [DecidableEq α] (k k' : α) (v : β) (l : List (α × β))
    (h : k ≠ k') : alook k' (aset k v l) = alook k' l := by
  induction l with
  | nil => simp [aset, alook, h]
  | cons hd tl ih =>
    by_cases h1 : hd.1 = k
    · simp [aset, h1, alook, h]
    · simp [aset, h1, alook, ih]

theorem alook_adel_self {α β : Type} [DecidableEq α] (k : α) (l : List (α × β)) :
    alook k (adel k l) = none := by
  induction l with
  | nil => simp [adel, alook]
  | cons hd tl ih =>
    by_cases h : hd.1 = k
    · simp [adel, h, ih]
    · simp [adel, h, alook, ih]

theorem alook_adel_ne {α β : Type} [DecidableEq α] (k k' : α) (l : List (α × β))
    (h : k ≠ k') : alook k' (adel k l) = alook k' l := by
  induction l with
  | nil => simp [adel, alook]
  | cons hd tl ih =>
    by_cases h1 : hd.1 = k
    · subst h1
      simp [adel, alook, ih, if_neg (fun hh : hd.1 = k' => h hh)]
    · simp [adel, h1, alook, ih]

theorem aset_aset_self {α β : Type} [DecidableEq α] (k : α) (v w : β) (l : List (α × β)) :
    aset k v (aset k w l) = aset k v l := by
  induction l with
  | nil => simp [aset]
  | cons hd tl ih =>
    by_cases h : hd.1 = k
    · simp [aset, h]
    · simp [aset, h, ih]

theorem adel_adel_self {α β : Type} [DecidableEq α] (k : α) (l : List (α × β)) :
    adel k (adel k l) = adel k l := by
  induction l with
  | nil => simp [adel]
  | cons hd tl ih =>
    by_cases h : hd.1 = k
    · simp [adel, h, ih]
    · simp [adel, h, ih]

/-- Channel configuration, mirroring the destructuring defaults in
`EventBus.channel` and the optional hooks read through `config?.`.
Hooks whose only observable behaviour is being invoked (`onChange`,
`onInit`, `onClear`) are recorded as presence flags; their invocations
are traced.  `ttl`, `debounce`, `throttle` use `0` for "not configured",
matching JavaScript truthiness tests (`if (ttl)`, `if (config.debounce)`,
`if (config.throttle)`). -/
structure Config where
  initialValue : Val := Val.undef
  storage : StorageMode := StorageMode.memory
  storageKey : Option String := none
  ttl : Nat := 0
  autoCleanup : Bool := false
  validate : Option (Val → Bool) := none
  transform : Option (Val → Val) := none
  onChange : Bool := false
  onInit : Bool := false
  onClear : Bool := false
  debounce : Nat := 0
  throttle : Nat := 0

/-- Pending `setTimeout(executeCallback, config.debounce)` for a channel's
`onChange`: the closure captured `newValue` and `oldValue` at schedule time. -/
structure DebEntry where
  fireAt : Nat
  newV : Val
  oldV : Val
deriving DecidableEq, Repr

/-- One channel record, mirroring the object literal stored in
`EventBus.channels`.  `id` models the JavaScript object identity of the
record (closures returned by `subscribe` capture the record itself). -/
structure Channel where
  id : Nat
  value : Val
  storage : StorageMode
  storageKey : String
  subscribers : List Nat
  ttl : Nat
  autoCleanup : Bool
  createdAt : Nat
  config : Option Config
  isInitialized : Bool
  ttlTimer : Option Nat
  debTimer : Option DebEntry
  onChangeLastCall : Nat

/-- Options of an instant-event listener registration (`EventBus.on`). -/
structure ListenOpts where
  validate : Option (Val → Bool) := none
  transform : Option (Val → Val) := none
  debounce : Nat := 0
  throttle : Nat := 0
  once : Bool := false

/-- One instant-event registration: the wrapped listener closure of
`EventBus.on` together with its per-registration mutable state
(`debounceTimer`, `lastCallTime`, `hasExecuted`).  `lid` identifies the
underlying listener; `ok d` tells whether `listener(d)` completes
normally (`false` models the listener throwing, which the source
catches before `hasExecuted = true` runs). -/
structure Reg where
  lid : Nat
  ok : Val → Bool
  opts : ListenOpts
  eventName : String
  setId : Nat
  hasExecuted : Bool
  lastCallTime : Nat
  debounceTimer : Option Nat

/-- Pending `setTimeout(executeListener, options.debounce)` of an
instant-event registration; the closure captured `transformedData`. -/
structure EvTimer where
  tid : Nat
  regId : Nat
  fireAt : Nat
  data : Val

/-- The channel half of the bus state: `EventBus.channels` modelled as a
registry from names to record ids plus a heap of records, and the two
key-value stores behind `sessionStorage` / `localStorage`. -/
structure ChState where
  chHeap : List (Nat × Channel)
  registry : List (String × Nat)
  nextChId : Nat
  sessionStore : List (String × Val)
  localStore : List (String × Val)

/-- The instant-event half of the bus state: `EventBus.eventListeners`
modelled as a map from names to `Set` ids, the heap of `Set` objects,
the heap of wrapped-listener registrations, and the pending listener
debounce timers. -/
structure EvState where
  evRegistry : List (String × Nat)
  setsHeap : List (Nat × List Nat)
  regsHeap : List (Nat × Reg)
  nextSetId : Nat
  nextRegId : Nat
  evTimers : List EvTimer
  nextTid : Nat

/-- The whole mutable state of the bus together with the trace of
observable effects. -/
structure BusState where
  chs : ChState
  evs : EvState
  trace : List Ev

/-- The initial bus: empty maps, no timers, empty trace.  Timer ids start
at 1 because browser `setTimeout` ids are positive (they are tested for
truthiness in the source). -/
def emptyBus : BusState :=
  { chs := { chHeap := [], registry := [], nextChId := 0, sessionStore := [], localStore := [] },
    evs := { evRegistry := [], setsHeap := [], regsHeap := [], nextSetId := 0, nextRegId := 0,
             evTimers := [], nextTid := 1 },
    trace := [] }

/-- Accessor for `channel.config?.validate`. -/
def Channel.validateF (ch : Channel) : Option (Val → Bool) :=
  ch.config.bind (fun c => c.validate)

/-- Accessor for `channel.config?.transform`. -/
def Channel.transformF (ch : Channel) : Option (Val → Val) :=
  ch.config.bind (fun c => c.transform)

/-- Presence of the `onChange` hook in the channel's config. -/
def Channel.hasOnChange (ch : Channel) : Bool :=
  (ch.config.map (fun c => c.onChange)).getD false

/-- Presence of the `onInit` hook in the channel's config. -/
def Channel.hasOnInitHook (ch : Channel) : Bool :=
  (ch.config.map (fun c => c.onInit)).getD false

/-- Presence of the `onClear` hook in the channel's config. -/
def Channel.hasOnClearHook (ch : Channel) : Bool :=
  (ch.config.map (fun c => c.onClear)).getD false

/-- The channel's configured `debounce` interval (0 when not configured). -/
def Channel.debounceMs (ch : Channel) : Nat :=
  (ch.config.map (fun c => c.debounce)).getD 0

/-- The channel's configured `throttle` interval (0 when not configured). -/
def Channel.throttleMs (ch : Channel) : Nat :=
  (ch.config.map (fun c => c.throttle)).getD 0

/-- Result of running the channel's `validate` hook on a raw value
(`true` when no hook is configured). -/
def chValidateOk (ch : Channel) (v : Val) : Bool :=
  match ch.validateF with
  | some f => f v
  | none => true

/-- Result of running the channel's `transform` hook on a raw value
(identity when no hook is configured). -/
def chTransform (ch : Channel) (v : Val) : Val :=
  match ch.transformF with
  | some g => g v
  | none => v

/-- Model of `EventBus.getFromStorage`: memory mode never reads; a missing
entry or a stored `undefined` reads back as `undefined` (a decode failure
is treated as absent by the source's catch). -/
def getFromStorage (c : ChState) (key : String) (mode : StorageMode) : Val :=
  match mode with
  | .memory => Val.undef
  | .session => ((alook key c.sessionStore).getD Val.undef)
  | .persistent => ((alook key c.localStore).getD Val.undef)

/-- Model of `EventBus.saveToStorage`: memory mode never writes. -/
def saveToStorage (c : ChState) (key : String) (v : Val) (mode : StorageMode) : ChState :=
  match mode with
  | .memory => c
  | .session => { c with sessionStore := aset key v c.sessionStore }
  | .persistent => { c with localStore := aset key v c.localStore }

/-- Model of `EventBus.removeFromStorage`: memory mode is a no-op. -/
def removeFromStorage (c : ChState) (key : String) (mode : StorageMode) : ChState :=
  match mode with
  | .memory => c
  | .session => { c with sessionStore := adel key c.sessionStore }
  | .persistent => { c with localStore := adel key c.localStore }

/-- Creation path of `EventBus.channel` (the branch taken when the name is
not yet registered): resolve the stored value against `initialValue`,
build the record, schedule the TTL timer, and fire `onInit` when the
resolved value is non-absent and the hook is configured. -/
def EventBus.channelCreate (s : BusState) (name : String) (cfg : Option Config) (now : Nat) :
    BusState :=
  let iv := (cfg.map (fun c => c.initialValue)).getD Val.undef
  let st := (cfg.map (fun c => c.storage)).getD StorageMode.memory
  let skey := (cfg.bind (fun c => c.storageKey)).getD ("lithium:" ++ name)
  let ttl := (cfg.map (fun c => c.ttl)).getD 0
  let ac := (cfg.map (fun c => c.autoCleanup)).getD false
  let stored := getFromStorage s.chs skey st
  let value := if stored ≠ Val.undef then stored else iv
  let isInit := !value.isAbsent
  let id := s.chs.nextChId
  let ch : Channel :=
    { id := id, value := value, storage := st, storageKey := skey, subscribers := [],
      ttl := ttl, autoCleanup := ac, createdAt := now, config := cfg,
      isInitialized := isInit,
      ttlTimer := if ttl ≠ 0 then some (now + ttl) else none,
      debTimer := none, onChangeLastCall := 0 }
  let ev : List Ev :=
    if isInit && ((cfg.map (fun c => c.onInit)).getD false) then [Ev.onInitFired id value]
    else []
  { s with chs := { s.chs with chHeap := aset id ch s.chs.chHeap,
                               registry := aset name id s.chs.registry,
                               nextChId := id + 1 },
           trace := s.trace ++ ev }

/-- Model of `EventBus.channel`: an existing name returns its channel
unchanged (the configuration argument is ignored); otherwise the channel
is created. -/
def EventBus.channelGet (s : BusState) (name : String) (cfg : Option Config) (now : Nat) :
    BusState :=
  if (alook name s.chs.registry).isSome then s
  else EventBus.channelCreate s name cfg now

/-- Model of `EventBus.executeOnChange`: debounce (re)schedules the
callback capturing the new/old pair; throttle fires synchronously when
at least `throttle` ms passed since the last firing and otherwise drops
the call; with neither, the callback fires synchronously. -/
def execOnChange (id : Nat) (ch : Channel) (newV oldV : Val) (now : Nat) :
    Channel × List Ev :=
  if ch.debounceMs ≠ 0 then
    ({ ch with debTimer := some { fireAt := now + ch.debounceMs, newV := newV, oldV := oldV } }, [])
  else if ch.throttleMs ≠ 0 then
    if ch.throttleMs ≤ now - ch.onChangeLastCall then
      ({ ch with onChangeLastCall := now }, [Ev.onChangeFired id newV oldV])
    else (ch, [])
  else (ch, [Ev.onChangeFired id newV oldV])

/-- Steps 2-7 of `EventBus.publish` (after the validate gate): transform,
set the signal, persist, fire `onInit` on the first non-absent value,
run `executeOnChange` when the hook is present, notify subscribers. -/
def EventBus.publishCore (s : BusState) (id : Nat) (ch : Channel) (v : Val) (now : Nat) :
    BusState :=
  let oldValue := ch.value
  let tv := chTransform ch v
  let ch1 := { ch with value := tv }
  let c1 := saveToStorage s.chs ch.storageKey tv ch.storage
  let fireInit := !ch.isInitialized && !tv.isAbsent
  let ch2 := if fireInit then { ch1 with isInitialized := true } else ch1
  let ev1 : List Ev := if fireInit && ch.hasOnInitHook then [Ev.onInitFired id tv] else []
  let step6 := if ch.hasOnChange then execOnChange id ch2 tv oldValue now else (ch2, [])
  let ev3 : List Ev := ch.subscribers.map (fun sub => Ev.subscriberCalled id sub tv)
  { s with chs := { c1 with chHeap := aset id step6.1 c1.chHeap },
           trace := s.trace ++ ev1 ++ step6.2 ++ ev3 }

/-- Model of `EventBus.publish`: an unknown name is implicitly created
with `initialValue = value` and the call returns; otherwise `validate`
gates the operation (rejection logs a warning and changes nothing else)
and the remaining steps run in `publishCore`. -/
def EventBus.publish (s : BusState) (name : String) (v : Val) (now : Nat) : BusState :=
  match alook name s.chs.registry with
  | none => EventBus.channelCreate s name (some { initialValue := v }) now
  | some id =>
    match alook id s.chs.chHeap with
    | none => s
    | some ch =>
      match ch.validateF with
      | some f =>
        if f v then EventBus.publishCore s id ch v now
        else { s with trace := s.trace ++ [Ev.warnValidation id name v] }
      | none => EventBus.publishCore s id ch v now

/-- Model of `EventBus.getValue`: `undefined` when the channel does not
exist, the signal's current value otherwise. -/
def EventBus.getValue (s : BusState) (name : String) : Val :=
  (((alook name s.chs.registry).bind (fun id => alook id s.chs.chHeap)).map
    (fun ch => ch.value)).getD Val.undef

/-- Model of `EventBus.clear`: run `onClear`, cancel the TTL and debounce
timers, remove the storage entry for non-memory modes, empty the
subscriber set, and delete the registry entry.  The record itself stays
in the heap (closures may still reference the dead object). -/
def EventBus.clear (s : BusState) (name : String) : BusState :=
  match alook name s.chs.registry with
  | none => s
  | some id =>
    match alook id s.chs.chHeap with
    | none => s
    | some ch =>
      let ev : List Ev := if ch.hasOnClearHook then [Ev.onClearFired id] else []
      let c1 := removeFromStorage s.chs ch.storageKey ch.storage
      { s with chs := { c1 with
                  chHeap := aset id { ch with subscribers := [], ttlTimer := none, debTimer := none } c1.chHeap,
                  registry := adel name c1.registry },
               trace := s.trace ++ ev }

/-- Model of `EventBus.subscribe`: ensure the channel exists (creating it
with no configuration when needed) and add the callback to its set. -/
def EventBus.subscribe (s : BusState) (name : String) (subId : Nat) (now : Nat) : BusState :=
  let s1 := if (alook name s.chs.registry).isSome then s
            else EventBus.channelCreate s name none now
  match alook name s1.chs.registry with
  | none => s1
  | some id =>
    match alook id s1.chs.chHeap with
    | none => s1
    | some ch =>
      let subs := if subId ∈ ch.subscribers then ch.subscribers else ch.subscribers ++ [subId]
      { s1 with chs := { s1.chs with chHeap := aset id { ch with subscribers := subs } s1.chs.chHeap } }

/-- Model of the closure returned by `EventBus.subscribe`: it captured the
channel record (`chId`) and the channel name; it deletes the callback
from the record's set and, when `autoCleanup` is set and no subscribers
remain, clears the channel under the captured name. -/
def EventBus.unsubCb (s : BusState) (chId : Nat) (name : String) (subId : Nat) : BusState :=
  match alook chId s.chs.chHeap with
  | none => s
  | some ch =>
    let ch' := { ch with subscribers := ch.subscribers.erase subId }
    let s1 := { s with chs := { s.chs with chHeap := aset chId ch' s.chs.chHeap } }
    if ch.autoCleanup && ch'.subscribers.isEmpty then EventBus.clear s1 name else s1

/-- Model of `EventBus.clearAll`: clear every channel, or only those whose
storage mode matches the filter. -/
def EventBus.clearAllB (s : BusState) (filter : Option StorageMode) : BusState :=
  (s.chs.registry.map (fun p => p.1)).foldl
    (fun s' n =>
      match filter with
      | none => EventBus.clear s' n
      | some m =>
        match (alook n s'.chs.registry).bind (fun id => alook id s'.chs.chHeap) with
        | some ch => if ch.storage = m then EventBus.clear s' n else s'
        | none => s') s

/-- Event-loop step firing a channel's TTL timer: the scheduled closure
runs `EventBus.clear(channelName)`; it can only run while the channel is
still registered (a manual clear cancelled the timer). -/
def EventBus.fireTTL (s : BusState) (name : String) (now : Nat) : BusState :=
  match (alook name s.chs.registry).bind (fun id => alook id s.chs.chHeap) with
  | none => s
  | some ch =>
    match ch.ttlTimer with
    | some t => if t ≤ now then EventBus.clear s name else s
    | none => s

/-- Event-loop step firing a channel's pending `onChange` debounce timer:
the captured callback runs with the new/old values captured at schedule
time; the timer is consumed. -/
def EventBus.fireChDeb (s : BusState) (name : String) (now : Nat) : BusState :=
  match alook name s.chs.registry with
  | none => s
  | some id =>
    match alook id s.chs.chHeap with
    | none => s
    | some ch =>
      match ch.debTimer with
      | some d =>
        if d.fireAt ≤ now then
          { s with chs := { s.chs with chHeap := aset id { ch with debTimer := none } s.chs.chHeap },
                   trace := s.trace ++ [Ev.onChangeFired id d.newV d.oldV] }
        else s
      | none => s

/-- Model of the `unlisten` closure returned by `EventBus.on`: cancel the
registration's pending debounce timer, delete the wrapped listener from
the *captured* `Set` object, and delete the event name's map entry when
that captured set became empty (regardless of which set the name
currently maps to). -/
def EventBus.unlisten (s : BusState) (r : Nat) : BusState :=
  match alook r s.evs.regsHeap with
  | none => s
  | some reg =>
    let e1 :=
      match reg.debounceTimer with
      | some tid => { s.evs with evTimers := s.evs.evTimers.filter (fun t => t.tid ≠ tid) }
      | none => s.evs
    let members' := ((alook reg.setId e1.setsHeap).getD []).erase r
    let e2 := { e1 with setsHeap := aset reg.setId members' e1.setsHeap }
    if members'.isEmpty then
      { s with evs := { e2 with evRegistry := adel reg.eventName e2.evRegistry } }
    else { s with evs := e2 }

/-- Model of `executeListener` inside the wrapped listener: invoke the
underlying listener (tracing the call and whether it completed
normally); on normal completion set `hasExecuted` and, when `once` is
set, run `unlisten`.  A throw is caught and leaves `hasExecuted` unset. -/
def EventBus.executeListener (s : BusState) (r : Nat) (td : Val) : BusState :=
  match alook r s.evs.regsHeap with
  | none => s
  | some reg =>
    let okv := reg.ok td
    let s1 := { s with trace := s.trace ++ [Ev.listenerCalled r reg.lid td okv] }
    if okv then
      let s2 := { s1 with evs := { s1.evs with
                    regsHeap := aset r { reg with hasExecuted := true } s1.evs.regsHeap } }
      if reg.opts.once then EventBus.unlisten s2 r else s2
    else s1

/-- Model of the wrapped listener built by `EventBus.on`: the
`once`/`hasExecuted` guard, the validate filter, the transform, and the
debounce / throttle / immediate dispatch of `executeListener`. -/
def EventBus.wrappedCall (s : BusState) (r : Nat) (d : Val) (now : Nat) : BusState :=
  match alook r s.evs.regsHeap with
  | none => s
  | some reg =>
    if reg.opts.once && reg.hasExecuted then s
    else if (match reg.opts.validate with | some f => !(f d) | none => false) then s
    else
      let td := match reg.opts.transform with | some g => g d | none => d
      if reg.opts.debounce ≠ 0 then
        let e1 :=
          match reg.debounceTimer with
          | some tid => { s.evs with evTimers := s.evs.evTimers.filter (fun t => t.tid ≠ tid) }
          | none => s.evs
        let tid := e1.nextTid
        { s with evs := { e1 with
            evTimers := e1.evTimers ++ [{ tid := tid, regId := r, fireAt := now + reg.opts.debounce, data := td }],
            nextTid := tid + 1,
            regsHeap := aset r { reg with debounceTimer := some tid } e1.regsHeap } }
      else if reg.opts.throttle ≠ 0 then
        if reg.opts.throttle ≤ now - reg.lastCallTime then
          EventBus.executeListener
            { s with evs := { s.evs with
                regsHeap := aset r { reg with lastCallTime := now } s.evs.regsHeap } } r td
        else s
      else EventBus.executeListener s r td

/-- Model of `EventBus.emit`: run every wrapped listener currently in the
name's listener set, in insertion order, skipping listeners removed by
an earlier callback of the same emit (JS `Set.forEach` semantics). -/
def EventBus.emit (s : BusState) (name : String) (d : Val) (now : Nat) : BusState :=
  match alook name s.evs.evRegistry with
  | none => s
  | some sid =>
    ((alook sid s.evs.setsHeap).getD []).foldl
      (fun s' r =>
        if r ∈ (alook sid s'.evs.setsHeap).getD [] then EventBus.wrappedCall s' r d now else s') s

/-- Model of `EventBus.on`: create the name's listener `Set` when absent,
build the wrapped-listener registration with fresh per-registration
state, and add it to the set. -/
def EventBus.on (s : BusState) (name : String) (lid : Nat) (ok : Val → Bool)
    (opts : ListenOpts) : BusState :=
  let s1 :=
    if (alook name s.evs.evRegistry).isSome then s
    else { s with evs := { s.evs with
             setsHeap := aset s.evs.nextSetId [] s.evs.setsHeap,
             evRegistry := aset name s.evs.nextSetId s.evs.evRegistry,
             nextSetId := s.evs.nextSetId + 1 } }
  match alook name s1.evs.evRegistry with
  | none => s1
  | some sid =>
    let r := s1.evs.nextRegId
    let reg : Reg := { lid := lid, ok := ok, opts := opts, eventName := name, setId := sid,
                       hasExecuted := false, lastCallTime := 0, debounceTimer := none }
    { s1 with evs := { s1.evs with
        regsHeap := aset r reg s1.evs.regsHeap, nextRegId := r + 1,
        setsHeap := aset sid (((alook sid s1.evs.setsHeap).getD []) ++ [r]) s1.evs.setsHeap } }

/-- Model of `EventBus.once`: alias of `on` with `{ once: true }`. -/
def EventBus.onceReg (s : BusState) (name : String) (lid : Nat) (ok : Val → Bool) : BusState :=
  EventBus.on s name lid ok { once := true }

/-- Model of `EventBus.off`: delete the name's listener-map entry
unconditionally; pending debounce timers and the set object itself are
left untouched. -/
def EventBus.off (s : BusState) (name : String) : BusState :=
  { s with evs := { s.evs with evRegistry := adel name s.evs.evRegistry } }

/-- Event-loop step firing a pending instant-event debounce timer: the
timer is consumed and the captured `executeListener` closure runs on the
captured transformed data. -/
def EventBus.fireEvTimer (s : BusState) (tid : Nat) (now : Nat) : BusState :=
  match s.evs.evTimers.find? (fun t => t.tid == tid) with
  | none => s
  | some t =>
    if t.fireAt ≤ now then
      EventBus.executeListener
        { s with evs := { s.evs with evTimers := s.evs.evTimers.filter (fun u => u.tid ≠ tid) } }
        t.regId t.data
    else s

/-- One bus API call (or event-loop timer firing), with the wall-clock
time `Date.now()` would return during it. -/
inductive Op where
  | chOp : String → Option Config → Nat → Op
  | pub : String → Val → Nat → Op
  | sub : String → Nat → Nat → Op
  | unsub : Nat → String → Nat → Op
  | clearOp : String → Op
  | clearAllOp : Option StorageMode → Op
  | ttlFire : String → Nat → Op
  | chDebFire : String → Nat → Op
  | emitOp : String → Val → Nat → Op
  | onOp : String → Nat → (Val → Bool) → ListenOpts → Op
  | onceOp : String → Nat → (Val → Bool) → Op
  | unlistenOp : Nat → Op
  | offOp : String → Op
  | evTimerFire : Nat → Nat → Op

/-- Interpretation of one operation on the bus state. -/
def step (s : BusState) : Op → BusState
  | .chOp n cfg now => EventBus.channelGet s n cfg now
  | .pub n v now => EventBus.publish s n v now
  | .sub n subId now => EventBus.subscribe s n subId now
  | .unsub chId n subId => EventBus.unsubCb s chId n subId
  | .clearOp n => EventBus.clear s n
  | .clearAllOp f => EventBus.clearAllB s f
  | .ttlFire n now => EventBus.fireTTL s n now
  | .chDebFire n now => EventBus.fireChDeb s n now
  | .emitOp n d now => EventBus.emit s n d now
  | .onOp n lid ok opts => EventBus.on s n lid ok opts
  | .onceOp n lid ok => EventBus.onceReg s n lid ok
  | .unlistenOp r => EventBus.unlisten s r
  | .offOp n => EventBus.off s n
  | .evTimerFire tid now => EventBus.fireEvTimer s tid now

/-- Run a list of operations from a given state. -/
def runFrom (s : BusState) (ops : List Op) : BusState :=
  ops.foldl step s

/-- Run a list of operations from the pristine bus. -/
def run (ops : List Op) : BusState :=
  runFrom emptyBus ops

/-- Predicate selecting `onInit` events of the channel incarnation `id`. -/
def isOnInitFor (id : Nat) : Ev → Bool
  | .onInitFired i _ => i == id
  | _ => false

/-- Number of `onInit` firings of channel incarnation `id` in a trace. -/
def onInitCount (id : Nat) (tr : List Ev) : Nat :=
  (tr.filter (isOnInitFor id)).length

/-- Predicate selecting `onChange` events of the channel incarnation `id`. -/
def isOnChangeFor (id : Nat) : Ev → Bool
  | .onChangeFired i _ _ => i == id
  | _ => false

/-- The `onChange` events of channel incarnation `id` in a trace, in order. -/
def onChangeEvents (id : Nat) (tr : List Ev) : List Ev :=
  tr.filter (isOnChangeFor id)

/-- Predicate selecting invocations of registration `r`'s underlying listener. -/
def isCallFor (r : Nat) : Ev → Bool
  | .listenerCalled r' _ _ _ => r' == r
  | _ => false

/-- Number of invocations of registration `r`'s underlying listener. -/
def callCount (r : Nat) (tr : List Ev) : Nat :=
  (tr.filter (isCallFor r)).length

/-- Predicate selecting normally-completing invocations of registration `r`. -/
def isSuccFor (r : Nat) : Ev → Bool
  | .listenerCalled r' _ _ ok => r' == r && ok
  | _ => false

/-- Number of normally-completing invocations of registration `r`. -/
def succCount (r : Nat) (tr : List Ev) : Nat :=
  (tr.filter (isSuccFor r)).length

/-- Membership of a registration in a listener set of the heap. -/
def inSet (s : BusState) (sid r : Nat) : Prop :=
  r ∈ (alook sid s.evs.setsHeap).getD []

theorem execOnChange_debounce (id : Nat) (ch : Channel) (nv ov : Val) (now : Nat)
    (h : ch.debounceMs ≠ 0) :
    execOnChange id ch nv ov now =
      ({ ch with debTimer := some { fireAt := now + ch.debounceMs, newV := nv, oldV := ov } }, []) := by
  simp [execOnChange, h]

theorem execOnChange_throttle_fire (id : Nat) (ch : Channel) (nv ov : Val) (now : Nat)
    (h : ch.debounceMs = 0) (h1 : ch.throttleMs ≠ 0)
    (h2 : ch.throttleMs ≤ now - ch.onChangeLastCall) :
    execOnChange id ch nv ov now =
      ({ ch with onChangeLastCall := now }, [Ev.onChangeFired id nv ov]) := by
  simp [execOnChange, h, h1, h2]

theorem execOnChange_throttle_drop (id : Nat) (ch : Channel) (nv ov : Val) (now : Nat)
    (h : ch.debounceMs = 0) (h1 : ch.throttleMs ≠ 0)
    (h2 : ¬ ch.throttleMs ≤ now - ch.onChangeLastCall) :
    execOnChange id ch nv ov now = (ch, []) := by
  simp [execOnChange, h, h1, h2]

theorem execOnChange_value (id : Nat) (ch : Channel) (nv ov : Val) (now : Nat) :
    (execOnChange id ch nv ov now).1.value = ch.value := by
  simp only [execOnChange]
  split_ifs <;> rfl

theorem execOnChange_config (id : Nat) (ch : Channel) (nv ov : Val) (now : Nat) :
    (execOnChange id ch nv ov now).1.config = ch.config := by
  simp only [execOnChange]
  split_ifs <;> rfl

theorem execOnChange_isInitialized (id : Nat) (ch : Channel) (nv ov : Val) (now : Nat) :
    (execOnChange id ch nv ov now).1.isInitialized = ch.isInitialized := by
  simp only [execOnChange]
  split_ifs <;> rfl

theorem execOnChange_events (id : Nat) (ch : Channel) (nv ov : Val) (now : Nat) :
    (execOnChange id ch nv ov now).2 = [] ∨
    (execOnChange id ch nv ov now).2 = [Ev.onChangeFired id nv ov] := by
  simp only [execOnChange]
  split_ifs <;> simp

/-- C1.  Publishing a value that the channel's `validate` hook rejects
aborts atomically: the warning is the only observable effect, the
channel heap and registry (hence the current value and all timers), both
storage backends, and the whole instant-event state are unchanged, and
no `onInit` / `onChange` / subscriber event is appended. -/
theorem publish_validate_rejects (s : BusState) (n : String) (v : Val) (now id : Nat)
    (ch : Channel) (f : Val → Bool)
    (hreg : alook n s.chs.registry = some id) (hch : alook id s.chs.chHeap = some ch)
    (hv : ch.validateF = some f) (hf : f v = false) :
    EventBus.publish s n v now =
      { s with trace := s.trace ++ [Ev.warnValidation id n v] } ∧
    (EventBus.publish s n v now).chs = s.chs ∧
    (EventBus.publish s n v now).evs = s.evs ∧
    EventBus.getValue (EventBus.publish s n v now) n = ch.value ∧
    (EventBus.publish s n v now).trace = s.trace ++ [Ev.warnValidation id n v] := by
  have hmain : EventBus.publish s n v now =
      { s with trace := s.trace ++ [Ev.warnValidation id n v] } := by
    simp [EventBus.publish, hreg, hch, hv, hf]
  refine ⟨hmain, ?_, ?_, ?_, ?_⟩
  · rw [hmain]
  · rw [hmain]
  · rw [hmain]
    simp [EventBus.getValue, hreg, hch]
  · rw [hmain]

/-- Witness for C1 at a concrete state: a channel whose validate hook
rejects `null`. -/
theorem publish_validate_rejects_witness :
    EventBus.getValue
      (EventBus.publish
        { chs := { chHeap := [(0, { id := 0, value := Val.num 4, storage := StorageMode.memory,
                                    storageKey := "lithium:c", subscribers := [5], ttl := 0,
                                    autoCleanup := false, createdAt := 0,
                                    config := some { validate := some (fun w => !w.isAbsent), onChange := true },
                                    isInitialized := true, ttlTimer := none, debTimer := none,
                                    onChangeLastCall := 0 })],
                   registry := [("c", 0)], nextChId := 1, sessionStore := [], localStore := [] },
          evs := emptyBus.evs, trace := [] } "c" Val.null 7) "c" = Val.num 4 := by
  have h := publish_validate_rejects
    { chs := { chHeap := [(0, { id := 0, value := Val.num 4, storage := StorageMode.memory,
                                storageKey := "lithium:c", subscribers := [5], ttl := 0,
                                autoCleanup := false, createdAt := 0,
                                config := some { validate := some (fun w => !w.isAbsent), onChange := true },
                                isInitialized := true, ttlTimer := none, debTimer := none,
                                onChangeLastCall := 0 })],
               registry := [("c", 0)], nextChId := 1, sessionStore := [], localStore := [] },
      evs := emptyBus.evs, trace := [] } "c" Val.null 7 0 _ (fun w => !w.isAbsent)
    (by rfl) (by rfl) (by rfl) (by rfl)
  exact h.2.2.2.1

theorem saveToStorage_chHeap (c : ChState) (k : String) (v : Val) (m : StorageMode) :
    (saveToStorage c k v m).chHeap = c.chHeap := by
  cases m <;> rfl

theorem saveToStorage_registry (c : ChState) (k : String) (v : Val) (m : StorageMode) :
    (saveToStorage c k v m).registry = c.registry := by
  cases m <;> rfl

theorem saveToStorage_nextChId (c : ChState) (k : String) (v : Val) (m : StorageMode) :
    (saveToStorage c k v m).nextChId = c.nextChId := by
  cases m <;> rfl

/-- The "first non-absent value" test of publish step 5 on the
post-transform value. -/
def pubFireInit (ch : Channel) (v : Val) : Bool :=
  !ch.isInitialized && !(chTransform ch v).isAbsent

/-- The channel record after publish steps 3 and 5 (signal set, possibly
marked initialized). -/
def pubChanMid (ch : Channel) (v : Val) : Channel :=
  if pubFireInit ch v then { ch with value := chTransform ch v, isInitialized := true }
  else { ch with value := chTransform ch v }

/-- The channel record as stored back by publish (after step 6 possibly
scheduled a debounce timer or moved the throttle clock). -/
def pubChanFinal (id : Nat) (ch : Channel) (v : Val) (now : Nat) : Channel :=
  if ch.hasOnChange then (execOnChange id (pubChanMid ch v) (chTransform ch v) ch.value now).1
  else pubChanMid ch v

/-- The trace events appended by a successful (post-validate) publish. -/
def pubEvsOf (id : Nat) (ch : Channel) (v : Val) (now : Nat) : List Ev :=
  (if pubFireInit ch v && ch.hasOnInitHook then [Ev.onInitFired id (chTransform ch v)] else [])
  ++ (if ch.hasOnChange then (execOnChange id (pubChanMid ch v) (chTransform ch v) ch.value now).2 else [])
  ++ ch.subscribers.map (fun sub => Ev.subscriberCalled id sub (chTransform ch v))

theorem publishCore_eq (s : BusState) (id : Nat) (ch : Channel) (v : Val) (now : Nat) :
    EventBus.publishCore s id ch v now =
      { s with
        chs := { chHeap := aset id (pubChanFinal id ch v now) s.chs.chHeap,
                 registry := s.chs.registry,
                 nextChId := s.chs.nextChId,
                 sessionStore :=
                   (saveToStorage s.chs ch.storageKey (chTransform ch v) ch.storage).sessionStore,
                 localStore :=
                   (saveToStorage s.chs ch.storageKey (chTransform ch v) ch.storage).localStore },
        trace := s.trace ++ pubEvsOf id ch v now } := by
  unfold EventBus.publishCore pubChanFinal pubChanMid pubEvsOf pubFireInit
  by_cases h1 : ch.hasOnChange <;>
    by_cases h2 : !ch.isInitialized && !(chTransform ch v).isAbsent <;>
      simp [h1, h2, saveToStorage_chHeap, saveToStorage_registry, saveToStorage_nextChId,
            pubChanMid, pubFireInit]

theorem pubChanFinal_value (id : Nat) (ch : Channel) (v : Val) (now : Nat) :
    (pubChanFinal id ch v now).value = chTransform ch v := by
  unfold pubChanFinal
  split
  · rw [execOnChange_value]
    unfold pubChanMid
    split <;> rfl
  · unfold pubChanMid
    split <;> rfl

theorem pubChanFinal_config (id : Nat) (ch : Channel) (v : Val) (now : Nat) :
    (pubChanFinal id ch v now).config = ch.config := by
  unfold pubChanFinal
  split
  · rw [execOnChange_config]
    unfold pubChanMid
    split <;> rfl
  · unfold pubChanMid
    split <;> rfl

theorem pubChanFinal_isInitialized (id : Nat) (ch : Channel) (v : Val) (now : Nat) :
    (pubChanFinal id ch v now).isInitialized = (ch.isInitialized || pubFireInit ch v) := by
  unfold pubChanFinal
  have hmid : (pubChanMid ch v).isInitialized = (ch.isInitialized || pubFireInit ch v) := by
    unfold pubChanMid
    by_cases h : pubFireInit ch v <;> simp [h]
  split
  · rw [execOnChange_isInitialized, hmid]
  · exact hmid

/-- Reduction of `publish` to `publishCore` when the channel exists and
validation passes. -/
theorem publish_eq_core (s : BusState) (n : String) (v : Val) (now id : Nat) (ch : Channel)
    (hreg : alook n s.chs.registry = some id) (hch : alook id s.chs.chHeap = some ch)
    (hval : chValidateOk ch v = true) :
    EventBus.publish s n v now = EventBus.publishCore s id ch v now := by
  cases hvf : ch.validateF with
  | none => simp [EventBus.publish, hreg, hch, hvf]
  | some f =>
    have hfv : f v = true := by simpa [chValidateOk, hvf] using hval
    simp [EventBus.publish, hreg, hch, hvf, hfv]

/-- C2.  When validation passes on a channel with a `transform` hook, the
transform's output (not the raw published value) is what the signal
holds and `getValue` returns, what is persisted to the configured
non-memory storage, and what every subscriber callback receives. -/
theorem publish_transform_applied (s : BusState) (n : String) (v : Val) (now id : Nat)
    (ch : Channel) (g : Val → Val)
    (hreg : alook n s.chs.registry = some id) (hch : alook id s.chs.chHeap = some ch)
    (hval : chValidateOk ch v = true) (htr : ch.transformF = some g) :
    EventBus.getValue (EventBus.publish s n v now) n = g v ∧
    (ch.storage = StorageMode.session →
      alook ch.storageKey (EventBus.publish s n v now).chs.sessionStore = some (g v)) ∧
    (ch.storage = StorageMode.persistent →
      alook ch.storageKey (EventBus.publish s n v now).chs.localStore = some (g v)) ∧
    ∃ E, (EventBus.publish s n v now).trace = s.trace ++ E ∧
      (∀ sub ∈ ch.subscribers, Ev.subscriberCalled id sub (g v) ∈ E) ∧
      (∀ e ∈ E, ∀ i q w, e = Ev.subscriberCalled i q w → w = g v) := by
  have htv : chTransform ch v = g v := by simp [chTransform, htr]
  rw [publish_eq_core s n v now id ch hreg hch hval, publishCore_eq]
  refine ⟨?_, ?_, ?_, ?_⟩
  · simp [EventBus.getValue, saveToStorage_registry, hreg, alook_aset_self,
          pubChanFinal_value, htv]
  · intro hst
    simp [saveToStorage, hst, alook_aset_self, htv]
  · intro hst
    simp [saveToStorage, hst, alook_aset_self, htv]
  · refine ⟨pubEvsOf id ch v now, rfl, ?_, ?_⟩
    · intro sub hsub
      unfold pubEvsOf
      rw [htv]
      refine List.mem_append.2 (Or.inr ?_)
      exact List.mem_map.2 ⟨sub, hsub, rfl⟩
    · intro e he i q w hew
      subst hew
      unfold pubEvsOf at he
      rcases List.mem_append.1 he with h1 | h2
      · rcases List.mem_append.1 h1 with h3 | h4
        · revert h3
          split <;> simp
        · revert h4
          split
          · rcases execOnChange_events id (pubChanMid ch v) (chTransform ch v) ch.value now with he2 | he2 <;>
              simp [he2]
          · simp
      · rcases List.mem_map.1 h2 with ⟨sub, _, heq⟩
        have := heq
        simp only [Ev.subscriberCalled.injEq] at this
        rw [← this.2.2, htv]

/-- Concrete transform used by the C2 witness. -/
def c2g : Val → Val :=
  fun w => match w with | Val.num n => Val.num (n + 1) | x => x

/-- Concrete channel used by the C2 witness: session storage, one
subscriber, a transform hook. -/
def c2Chan : Channel :=
  { id := 0, value := Val.num 0, storage := StorageMode.session,
    storageKey := "lithium:c", subscribers := [9], ttl := 0, autoCleanup := false,
    createdAt := 0, config := some { transform := some c2g }, isInitialized := true,
    ttlTimer := none, debTimer := none, onChangeLastCall := 0 }

/-- Concrete bus state used by the C2 witness. -/
def c2State : BusState :=
  { chs := { chHeap := [(0, c2Chan)], registry := [("c", 0)], nextChId := 1,
             sessionStore := [], localStore := [] },
    evs := emptyBus.evs, trace := [] }

/-- Witness for C2: publishing `3` through the `+1` transform makes
`getValue` return `4` and persists `4` under the session key. -/
theorem publish_transform_applied_witness :
    EventBus.getValue (EventBus.publish c2State "c" (Val.num 3) 0) "c" = Val.num 4 ∧
    alook "lithium:c" (EventBus.publish c2State "c" (Val.num 3) 0).chs.sessionStore =
      some (Val.num 4) := by
  have h := publish_transform_applied c2State "c" (Val.num 3) 0 0 c2Chan c2g
    rfl rfl rfl rfl
  exact ⟨h.1, h.2.1 rfl⟩

/-- C9.  Publishing to a name with no registered channel implicitly
creates the channel with `initialValue = value` and default
configuration (memory storage, no hooks) and returns immediately:
`getValue` afterwards yields the published value, no trace event is
appended (no `onChange`, no subscriber notification), and neither
storage backend is touched. -/
theorem publish_unknown_creates (s : BusState) (n : String) (v : Val) (now : Nat)
    (hreg : alook n s.chs.registry = none) :
    (EventBus.publish s n v now).trace = s.trace ∧
    EventBus.getValue (EventBus.publish s n v now) n = v ∧
    alook n (EventBus.publish s n v now).chs.registry = some s.chs.nextChId ∧
    alook s.chs.nextChId (EventBus.publish s n v now).chs.chHeap =
      some { id := s.chs.nextChId, value := v, storage := StorageMode.memory,
             storageKey := "lithium:" ++ n, subscribers := [], ttl := 0,
             autoCleanup := false, createdAt := now,
             config := some { initialValue := v }, isInitialized := !v.isAbsent,
             ttlTimer := none, debTimer := none, onChangeLastCall := 0 } ∧
    (EventBus.publish s n v now).chs.sessionStore = s.chs.sessionStore ∧
    (EventBus.publish s n v now).chs.localStore = s.chs.localStore ∧
    (EventBus.publish s n v now).evs = s.evs := by
  have hpub : EventBus.publish s n v now =
      EventBus.channelCreate s n (some { initialValue := v }) now := by
    simp [EventBus.publish, hreg]
  rw [hpub]
  unfold EventBus.channelCreate
  refine ⟨?_, ?_, ?_, ?_, ?_, ?_, ?_⟩
  · simp [getFromStorage]
  · simp [EventBus.getValue, getFromStorage, alook_aset_self]
  · simp [alook_aset_self]
  · simp [getFromStorage, alook_aset_self]
  · rfl
  · rfl
  · rfl

/-- Witness for C9 at the empty bus: publishing `7` on an unknown name. -/
theorem publish_unknown_creates_witness :
    (EventBus.publish emptyBus "k" (Val.num 7) 5).trace = [] ∧
    EventBus.getValue (EventBus.publish emptyBus "k" (Val.num 7) 5) "k" = Val.num 7 := by
  have h := publish_unknown_creates emptyBus "k" (Val.num 7) 5 rfl
  exact ⟨h.1, h.2.1⟩

theorem removeFromStorage_chHeap (c : ChState) (k : String) (m : StorageMode) :
    (removeFromStorage c k m).chHeap = c.chHeap := by
  cases m <;> rfl

theorem removeFromStorage_registry (c : ChState) (k : String) (m : StorageMode) :
    (removeFromStorage c k m).registry = c.registry := by
  cases m <;> rfl

/-- C6.  Invoking the unsubscribe handle of the last remaining subscriber
of an `autoCleanup` channel clears the channel: `onClear` is invoked
when configured, the persisted entry is removed for non-memory modes,
the channel is deleted from the registry, and its TTL and debounce
timers can no longer fire. -/
theorem unsub_last_autocleanup_clears (s : BusState) (n : String) (subId id : Nat)
    (ch : Channel)
    (hreg : alook n s.chs.registry = some id) (hch : alook id s.chs.chHeap = some ch)
    (hac : ch.autoCleanup = true) (hsubs : ch.subscribers = [subId]) :
    alook n (EventBus.unsubCb s id n subId).chs.registry = none ∧
    (EventBus.unsubCb s id n subId).trace =
      s.trace ++ (if ch.hasOnClearHook then [Ev.onClearFired id] else []) ∧
    (ch.storage = StorageMode.session →
      alook ch.storageKey (EventBus.unsubCb s id n subId).chs.sessionStore = none) ∧
    (ch.storage = StorageMode.persistent →
      alook ch.storageKey (EventBus.unsubCb s id n subId).chs.localStore = none) ∧
    (∀ t, EventBus.fireTTL (EventBus.unsubCb s id n subId) n t =
      EventBus.unsubCb s id n subId) ∧
    (∀ t, EventBus.fireChDeb (EventBus.unsubCb s id n subId) n t =
      EventBus.unsubCb s id n subId) ∧
    (EventBus.unsubCb s id n subId).evs = s.evs := by
  have hErase : ch.subscribers.erase subId = [] := by
    rw [hsubs]
    simp
  have hstep : EventBus.unsubCb s id n subId =
      EventBus.clear
        { s with chs := { s.chs with
            chHeap := aset id { ch with subscribers := [] } s.chs.chHeap } } n := by
    simp [EventBus.unsubCb, hch, hErase, hac]
  have hch1 :
      alook id (aset id { ch with subscribers := ([] : List Nat) } s.chs.chHeap) =
        some { ch with subscribers := ([] : List Nat) } := alook_aset_self _ _ _
  rw [hstep]
  simp only [EventBus.clear, hreg, hch1]
  refine ⟨?_, ?_, ?_, ?_, ?_, ?_, ?_⟩
  · simp [removeFromStorage_registry, alook_adel_self]
  · simp [Channel.hasOnClearHook]
  · intro hst
    simp [removeFromStorage, hst, alook_adel_self]
  · intro hst
    simp [removeFromStorage, hst, alook_adel_self]
  · intro t
    simp [EventBus.fireTTL, removeFromStorage_registry, alook_adel_self]
  · intro t
    simp [EventBus.fireChDeb, removeFromStorage_registry, alook_adel_self]
  · cases ch.storage <;> simp [removeFromStorage]

theorem onChangeEvents_append (id : Nat) (tr e : List Ev) :
    onChangeEvents id (tr ++ e) = onChangeEvents id tr ++ onChangeEvents id e := by
  simp [onChangeEvents]

theorem pubChanMid_config (ch : Channel) (v : Val) :
    (pubChanMid ch v).config = ch.config := by
  unfold pubChanMid
  split <;> rfl

theorem pubChanMid_lastCall (ch : Channel) (v : Val) :
    (pubChanMid ch v).onChangeLastCall = ch.onChangeLastCall := by
  unfold pubChanMid
  split <;> rfl

theorem pubChanMid_debTimer (ch : Channel) (v : Val) :
    (pubChanMid ch v).debTimer = ch.debTimer := by
  unfold pubChanMid
  split <;> rfl

theorem pubChanMid_value (ch : Channel) (v : Val) :
    (pubChanMid ch v).value = chTransform ch v := by
  unfold pubChanMid
  split <;> rfl

theorem chValidateOk_congr (ch' ch : Channel) (v : Val) (h : ch'.config = ch.config) :
    chValidateOk ch' v = chValidateOk ch v := by
  simp [chValidateOk, Channel.validateF, h]

theorem chTransform_congr (ch' ch : Channel) (v : Val) (h : ch'.config = ch.config) :
    chTransform ch' v = chTransform ch v := by
  simp [chTransform, Channel.transformF, h]

theorem hasOnChange_congr (ch' ch : Channel) (h : ch'.config = ch.config) :
    ch'.hasOnChange = ch.hasOnChange := by
  simp [Channel.hasOnChange, h]

theorem debounceMs_congr (ch' ch : Channel) (h : ch'.config = ch.config) :
    ch'.debounceMs = ch.debounceMs := by
  simp [Channel.debounceMs, h]

theorem throttleMs_congr (ch' ch : Channel) (h : ch'.config = ch.config) :
    ch'.throttleMs = ch.throttleMs := by
  simp [Channel.throttleMs, h]

/-- One publish on a throttle-mode channel whose quiet period has elapsed:
`onChange` fires synchronously and the throttle clock moves to `now`. -/
theorem publish_throttle_fires (s : BusState) (n : String) (v : Val) (now id : Nat)
    (ch : Channel)
    (hreg : alook n s.chs.registry = some id) (hch : alook id s.chs.chHeap = some ch)
    (hval : chValidateOk ch v = true) (hOC : ch.hasOnChange = true)
    (hdb : ch.debounceMs = 0) (hth : ch.throttleMs ≠ 0)
    (hfire : ch.throttleMs ≤ now - ch.onChangeLastCall) :
    alook id (EventBus.publish s n v now).chs.chHeap =
      some { pubChanMid ch v with onChangeLastCall := now } ∧
    alook n (EventBus.publish s n v now).chs.registry = some id ∧
    onChangeEvents id (EventBus.publish s n v now).trace =
      onChangeEvents id s.trace ++ [Ev.onChangeFired id (chTransform ch v) ch.value] ∧
    (EventBus.publish s n v now).evs = s.evs := by
  have hdbM : (pubChanMid ch v).debounceMs = 0 := by
    rw [debounceMs_congr _ _ (pubChanMid_config ch v)]
    exact hdb
  have hthM : (pubChanMid ch v).throttleMs ≠ 0 := by
    rw [throttleMs_congr _ _ (pubChanMid_config ch v)]
    exact hth
  have hfireM : (pubChanMid ch v).throttleMs ≤ now - (pubChanMid ch v).onChangeLastCall := by
    rw [throttleMs_congr _ _ (pubChanMid_config ch v), pubChanMid_lastCall]
    exact hfire
  have hexec := execOnChange_throttle_fire id (pubChanMid ch v) (chTransform ch v) ch.value now
    hdbM hthM hfireM
  have hfinal : pubChanFinal id ch v now = { pubChanMid ch v with onChangeLastCall := now } := by
    unfold pubChanFinal
    rw [if_pos hOC, hexec]
  have hevs : onChangeEvents id (pubEvsOf id ch v now) =
      [Ev.onChangeFired id (chTransform ch v) ch.value] := by
    unfold pubEvsOf
    rw [if_pos hOC, hexec]
    simp only [onChangeEvents_append]
    have h1 : onChangeEvents id
        (if pubFireInit ch v && ch.hasOnInitHook then [Ev.onInitFired id (chTransform ch v)] else []) = [] := by
      split <;> simp [onChangeEvents, isOnChangeFor]
    have h3 : onChangeEvents id
        (ch.subscribers.map (fun sub => Ev.subscriberCalled id sub (chTransform ch v))) = [] := by
      simp [onChangeEvents, isOnChangeFor]
    rw [h1, h3]
    simp [onChangeEvents, isOnChangeFor]
  rw [publish_eq_core s n v now id ch hreg hch hval, publishCore_eq]
  refine ⟨?_, ?_, ?_, rfl⟩
  · simp [saveToStorage_chHeap, alook_aset_self, hfinal]
  · simp [saveToStorage_registry, hreg]
  · simp [onChangeEvents_append, hevs]

/-- One publish on a throttle-mode channel inside the quiet period: the
`onChange` call is dropped (not queued) and the throttle clock is not
moved; the value still updates through `pubChanMid`. -/
theorem publish_throttle_drops (s : BusState) (n : String) (v : Val) (now id : Nat)
    (ch : Channel)
    (hreg : alook n s.chs.registry = some id) (hch : alook id s.chs.chHeap = some ch)
    (hval : chValidateOk ch v = true) (hOC : ch.hasOnChange = true)
    (hdb : ch.debounceMs = 0) (hth : ch.throttleMs ≠ 0)
    (hdrop : ¬ ch.throttleMs ≤ now - ch.onChangeLastCall) :
    alook id (EventBus.publish s n v now).chs.chHeap = some (pubChanMid ch v) ∧
    alook n (EventBus.publish s n v now).chs.registry = some id ∧
    onChangeEvents id (EventBus.publish s n v now).trace = onChangeEvents id s.trace ∧
    (EventBus.publish s n v now).evs = s.evs := by
  have hdbM : (pubChanMid ch v).debounceMs = 0 := by
    rw [debounceMs_congr _ _ (pubChanMid_config ch v)]
    exact hdb
  have hthM : (pubChanMid ch v).throttleMs ≠ 0 := by
    rw [throttleMs_congr _ _ (pubChanMid_config ch v)]
    exact hth
  have hdropM : ¬ (pubChanMid ch v).throttleMs ≤ now - (pubChanMid ch v).onChangeLastCall := by
    rw [throttleMs_congr _ _ (pubChanMid_config ch v), pubChanMid_lastCall]
    exact hdrop
  have hexec := execOnChange_throttle_drop id (pubChanMid ch v) (chTransform ch v) ch.value now
    hdbM hthM hdropM
  have hfinal : pubChanFinal id ch v now = pubChanMid ch v := by
    unfold pubChanFinal
    rw [if_pos hOC, hexec]
  have hevs : onChangeEvents id (pubEvsOf id ch v now) = [] := by
    unfold pubEvsOf
    rw [if_pos hOC, hexec]
    simp only [onChangeEvents_append]
    have h1 : onChangeEvents id
        (if pubFireInit ch v && ch.hasOnInitHook then [Ev.onInitFired id (chTransform ch v)] else []) = [] := by
      split <;> simp [onChangeEvents, isOnChangeFor]
    have h3 : onChangeEvents id
        (ch.subscribers.map (fun sub => Ev.subscriberCalled id sub (chTransform ch v))) = [] := by
      simp [onChangeEvents, isOnChangeFor]
    rw [h1, h3]
    simp [onChangeEvents]
  rw [publish_eq_core s n v now id ch hreg hch hval, publishCore_eq]
  refine ⟨?_, ?_, ?_, rfl⟩
  · simp [saveToStorage_chHeap, alook_aset_self, hfinal]
  · simp [saveToStorage_registry, hreg]
  · simp [onChangeEvents_append, hevs]

/-- C5.  On a channel configured with `throttle = T` (and no debounce),
two successful publishes less than `T` ms apart produce exactly one
`onChange` invocation, synchronously on the first publish; the second is
dropped and never queued (the debounce timer stays empty, so nothing can
fire late); a third publish at least `T` ms after the first firing
produces a second invocation.  The hypothesis `T ≤ t1` reflects that the
throttle clock starts at `0` and `Date.now()`-based publish times exceed
any sane throttle interval. -/
theorem throttle_publishes_onChange (s : BusState) (n : String) (v1 v2 v3 : Val)
    (t1 t2 t3 T id : Nat) (ch : Channel)
    (hreg : alook n s.chs.registry = some id) (hch : alook id s.chs.chHeap = some ch)
    (hOC : ch.hasOnChange = true) (hdb : ch.debounceMs = 0) (hth : ch.throttleMs = T)
    (hT : T ≠ 0) (hlast : ch.onChangeLastCall = 0) (hdt : ch.debTimer = none)
    (hval1 : chValidateOk ch v1 = true) (hval2 : chValidateOk ch v2 = true)
    (hval3 : chValidateOk ch v3 = true)
    (ht1 : T ≤ t1) (h12 : t1 ≤ t2) (h2lt : t2 < t1 + T) (h3ge : t1 + T ≤ t3) :
    onChangeEvents id (EventBus.publish s n v1 t1).trace =
      onChangeEvents id s.trace ++ [Ev.onChangeFired id (chTransform ch v1) ch.value] ∧
    onChangeEvents id (EventBus.publish (EventBus.publish s n v1 t1) n v2 t2).trace =
      onChangeEvents id (EventBus.publish s n v1 t1).trace ∧
    (∃ ch2, alook id (EventBus.publish (EventBus.publish s n v1 t1) n v2 t2).chs.chHeap =
        some ch2 ∧ ch2.debTimer = none ∧
        (∀ t', EventBus.fireChDeb (EventBus.publish (EventBus.publish s n v1 t1) n v2 t2) n t' =
          EventBus.publish (EventBus.publish s n v1 t1) n v2 t2)) ∧
    onChangeEvents id
        (EventBus.publish (EventBus.publish (EventBus.publish s n v1 t1) n v2 t2) n v3 t3).trace =
      onChangeEvents id (EventBus.publish (EventBus.publish s n v1 t1) n v2 t2).trace ++
        [Ev.onChangeFired id (chTransform ch v3) (chTransform ch v2)] := by
  have hfire1 : ch.throttleMs ≤ t1 - ch.onChangeLastCall := by
    rw [hth, hlast]
    omega
  obtain ⟨hch1, hreg1, htr1, _⟩ :=
    publish_throttle_fires s n v1 t1 id ch hreg hch hval1 hOC hdb (by rw [hth]; exact hT) hfire1
  have hcfg1 : ({ pubChanMid ch v1 with onChangeLastCall := t1 } : Channel).config = ch.config :=
    pubChanMid_config ch v1
  have hOC1 : ({ pubChanMid ch v1 with onChangeLastCall := t1 } : Channel).hasOnChange = true := by
    rw [hasOnChange_congr _ _ hcfg1]
    exact hOC
  have hdb1 : ({ pubChanMid ch v1 with onChangeLastCall := t1 } : Channel).debounceMs = 0 := by
    rw [debounceMs_congr _ _ hcfg1]
    exact hdb
  have hth1 : ({ pubChanMid ch v1 with onChangeLastCall := t1 } : Channel).throttleMs ≠ 0 := by
    rw [throttleMs_congr _ _ hcfg1, hth]
    exact hT
  have hdrop2 : ¬ ({ pubChanMid ch v1 with onChangeLastCall := t1 } : Channel).throttleMs ≤
      t2 - ({ pubChanMid ch v1 with onChangeLastCall := t1 } : Channel).onChangeLastCall := by
    rw [throttleMs_congr _ _ hcfg1, hth]
    show ¬ T ≤ t2 - t1
    omega
  have hval2' : chValidateOk { pubChanMid ch v1 with onChangeLastCall := t1 } v2 = true := by
    rw [chValidateOk_congr _ _ _ hcfg1]
    exact hval2
  obtain ⟨hch2, hreg2, htr2, _⟩ :=
    publish_throttle_drops (EventBus.publish s n v1 t1) n v2 t2 id
      { pubChanMid ch v1 with onChangeLastCall := t1 } hreg1 hch1 hval2' hOC1 hdb1 hth1 hdrop2
  have hcfg2 : (pubChanMid { pubChanMid ch v1 with onChangeLastCall := t1 } v2).config = ch.config := by
    rw [pubChanMid_config]
    exact hcfg1
  have hdt2 : (pubChanMid { pubChanMid ch v1 with onChangeLastCall := t1 } v2).debTimer = none := by
    rw [pubChanMid_debTimer]
    show (pubChanMid ch v1).debTimer = none
    rw [pubChanMid_debTimer]
    exact hdt
  have hlast2 : (pubChanMid { pubChanMid ch v1 with onChangeLastCall := t1 } v2).onChangeLastCall = t1 := by
    rw [pubChanMid_lastCall]
  have hOC2 : (pubChanMid { pubChanMid ch v1 with onChangeLastCall := t1 } v2).hasOnChange = true := by
    rw [hasOnChange_congr _ _ hcfg2]
    exact hOC
  have hdb2 : (pubChanMid { pubChanMid ch v1 with onChangeLastCall := t1 } v2).debounceMs = 0 := by
    rw [debounceMs_congr _ _ hcfg2]
    exact hdb
  have hth2 : (pubChanMid { pubChanMid ch v1 with onChangeLastCall := t1 } v2).throttleMs ≠ 0 := by
    rw [throttleMs_congr _ _ hcfg2, hth]
    exact hT
  have hval3' : chValidateOk (pubChanMid { pubChanMid ch v1 with onChangeLastCall := t1 } v2) v3 = true := by
    rw [chValidateOk_congr _ _ _ hcfg2]
    exact hval3
  have hfire3 : (pubChanMid { pubChanMid ch v1 with onChangeLastCall := t1 } v2).throttleMs ≤
      t3 - (pubChanMid { pubChanMid ch v1 with onChangeLastCall := t1 } v2).onChangeLastCall := by
    rw [throttleMs_congr _ _ hcfg2, hth, hlast2]
    omega
  obtain ⟨hch3, hreg3, htr3, _⟩ :=
    publish_throttle_fires (EventBus.publish (EventBus.publish s n v1 t1) n v2 t2) n v3 t3 id
      (pubChanMid { pubChanMid ch v1 with onChangeLastCall := t1 } v2)
      hreg2 hch2 hval3' hOC2 hdb2 hth2 hfire3
  refine ⟨htr1, htr2, ⟨_, hch2, hdt2, ?_⟩, ?_⟩
  · intro t'
    simp [EventBus.fireChDeb, hreg2, hch2, hdt2]
  · rw [htr3, chTransform_congr _ _ v3 hcfg2, pubChanMid_value,
        chTransform_congr _ _ v2 hcfg1]

/-- Concrete channel used by the C5 witness: `throttle = 100`, `onChange`
configured. -/
def c5Chan : Channel :=
  { id := 0, value := Val.undef, storage := StorageMode.memory, storageKey := "lithium:t",
    subscribers := [], ttl := 0, autoCleanup := false, createdAt := 0,
    config := some { onChange := true, throttle := 100 }, isInitialized := false,
    ttlTimer := none, debTimer := none, onChangeLastCall := 0 }

/-- Concrete bus state used by the C5 witness. -/
def c5State : BusState :=
  { chs := { chHeap := [(0, c5Chan)], registry := [("t", 0)], nextChId := 1,
             sessionStore := [], localStore := [] },
    evs := emptyBus.evs, trace := [] }

/-- Witness for C5: publishes at 100, 150, 200 ms with `throttle = 100`
produce `onChange` exactly at the first and third publish. -/
theorem throttle_publishes_onChange_witness :
    onChangeEvents 0 (EventBus.publish c5State "t" (Val.num 1) 100).trace =
      [Ev.onChangeFired 0 (Val.num 1) Val.undef] ∧
    onChangeEvents 0
        (EventBus.publish (EventBus.publish c5State "t" (Val.num 1) 100) "t" (Val.num 2) 150).trace =
      onChangeEvents 0 (EventBus.publish c5State "t" (Val.num 1) 100).trace ∧
    onChangeEvents 0
        (EventBus.publish (EventBus.publish (EventBus.publish c5State "t" (Val.num 1) 100)
          "t" (Val.num 2) 150) "t" (Val.num 3) 200).trace =
      onChangeEvents 0
          (EventBus.publish (EventBus.publish c5State "t" (Val.num 1) 100) "t" (Val.num 2) 150).trace ++
        [Ev.onChangeFired 0 (Val.num 3) (Val.num 2)] := by
  have h := throttle_publishes_onChange c5State "t" (Val.num 1) (Val.num 2) (Val.num 3)
    100 150 200 100 0 c5Chan rfl rfl rfl rfl rfl (by decide) rfl rfl rfl rfl rfl
    (by decide) (by decide) (by decide) (by decide)
  exact ⟨h.1, h.2.1, h.2.2.2⟩

theorem unlisten_trace (s : BusState) (r : Nat) :
    (EventBus.unlisten s r).trace = s.trace := by
  rcases hrx : alook r s.evs.regsHeap with _ | reg
  · simp [EventBus.unlisten, hrx]
  · rcases hdt : reg.debounceTimer with _ | tid <;>
      simp only [EventBus.unlisten, hrx, hdt] <;> split <;> rfl

theorem executeListener_trace (s : BusState) (r : Nat) (td : Val) (reg : Reg)
    (hr : alook r s.evs.regsHeap = some reg) :
    (EventBus.executeListener s r td).trace =
      s.trace ++ [Ev.listenerCalled r reg.lid td (reg.ok td)] := by
  unfold EventBus.executeListener
  rw [hr]
  by_cases hok : reg.ok td <;> by_cases ho : reg.opts.once <;>
    simp [hok, ho, unlisten_trace]

theorem find_filter_tid_none (l : List EvTimer) (tid : Nat) :
    (l.filter (fun t => t.tid ≠ tid)).find? (fun t => t.tid == tid) = none := by
  rw [List.find?_eq_none]
  intro x hx
  have hne := (List.mem_filter.1 hx).2
  simp only [ne_eq, decide_not, Bool.not_eq_eq_eq_not, Bool.not_true, decide_eq_false_iff_not] at hne
  simp [hne]

/-- C10.  With an instant-event registration's debounce timer pending,
`off(name)` deletes the name's listener-set entry but cancels no pending
debounce timer, leaves the registration heap untouched, and the
registered listener is still invoked when that timer later fires; the
registration's own `unlisten` function, by contrast, does cancel the
pending timer, after which firing it is a no-op. -/
theorem off_leaves_pending_debounce (s : BusState) (n : String) (r tid tf now sid : Nat)
    (d : Val) (reg : Reg)
    (hr : alook r s.evs.regsHeap = some reg)
    (hdb : reg.opts.debounce ≠ 0)
    (hdt : reg.debounceTimer = some tid)
    (hfind : s.evs.evTimers.find? (fun t => t.tid == tid) =
      some { tid := tid, regId := r, fireAt := tf, data := d })
    (hname : alook n s.evs.evRegistry = some sid)
    (htime : tf ≤ now) :
    alook n (EventBus.off s n).evs.evRegistry = none ∧
    (EventBus.off s n).evs.evTimers = s.evs.evTimers ∧
    (EventBus.off s n).evs.regsHeap = s.evs.regsHeap ∧
    (EventBus.off s n).trace = s.trace ∧
    (EventBus.fireEvTimer (EventBus.off s n) tid now).trace =
      s.trace ++ [Ev.listenerCalled r reg.lid d (reg.ok d)] ∧
    (EventBus.unlisten s r).evs.evTimers = s.evs.evTimers.filter (fun t => t.tid ≠ tid) ∧
    EventBus.fireEvTimer (EventBus.unlisten s r) tid now = EventBus.unlisten s r := by
  refine ⟨?_, rfl, rfl, rfl, ?_, ?_, ?_⟩
  · simp [EventBus.off, alook_adel_self]
  · have hfind' : (EventBus.off s n).evs.evTimers.find? (fun t => t.tid == tid) =
        some { tid := tid, regId := r, fireAt := tf, data := d } := hfind
    have hstep : EventBus.fireEvTimer (EventBus.off s n) tid now =
        EventBus.executeListener
          { EventBus.off s n with evs := { (EventBus.off s n).evs with
              evTimers := (EventBus.off s n).evs.evTimers.filter (fun u => u.tid ≠ tid) } }
          r d := by
      simp [EventBus.fireEvTimer, hfind', htime]
    rw [hstep]
    exact executeListener_trace _ r d reg hr
  · simp only [EventBus.unlisten, hr, hdt]
    split <;> rfl
  · have hT : (EventBus.unlisten s r).evs.evTimers =
        s.evs.evTimers.filter (fun t => t.tid ≠ tid) := by
      simp only [EventBus.unlisten, hr, hdt]
      split <;> rfl
    unfold EventBus.fireEvTimer
    rw [hT, find_filter_tid_none]

/-- Concrete registration used by the C10 witness: `debounce = 50` with
timer id 1 pending. -/
def c10Reg : Reg :=
  { lid := 3, ok := fun _ => true, opts := { debounce := 50 }, eventName := "x",
    setId := 0, hasExecuted := false, lastCallTime := 0, debounceTimer := some 1 }

/-- Concrete bus state used by the C10 witness: one registration on
event `x` with a pending debounce timer. -/
def c10State : BusState :=
  { chs := emptyBus.chs,
    evs := { evRegistry := [("x", 0)], setsHeap := [(0, [0])], regsHeap := [(0, c10Reg)],
             nextSetId := 1, nextRegId := 1,
             evTimers := [{ tid := 1, regId := 0, fireAt := 50, data := Val.num 9 }],
             nextTid := 2 },
    trace := [] }

/-- Witness for C10: after `off("x")` the timer still fires and invokes
listener 3; after `unlisten` instead, firing is a no-op. -/
theorem off_leaves_pending_debounce_witness :
    alook "x" (EventBus.off c10State "x").evs.evRegistry = none ∧
    (EventBus.fireEvTimer (EventBus.off c10State "x") 1 50).trace =
      [Ev.listenerCalled 0 3 (Val.num 9) true] ∧
    EventBus.fireEvTimer (EventBus.unlisten c10State 0) 1 50 =
      EventBus.unlisten c10State 0 := by
  have h := off_leaves_pending_debounce c10State "x" 0 1 50 50 0 (Val.num 9) c10Reg
    rfl (by decide) rfl rfl rfl (le_refl 50)
  exact ⟨h.1, h.2.2.2.2.1, h.2.2.2.2.2.2⟩

/-- The pending-timer cancellation performed by `unlisten` (clearTimeout
on the registration's captured timer variable). -/
def unlTimers (s : BusState) (reg : Reg) : List EvTimer :=
  match reg.debounceTimer with
  | some tid => s.evs.evTimers.filter (fun t => t.tid ≠ tid)
  | none => s.evs.evTimers

/-- The captured listener set after `unlisten` deletes the wrapped
listener. -/
def unlMembers (s : BusState) (r : Nat) (reg : Reg) : List Nat :=
  ((alook reg.setId s.evs.setsHeap).getD []).erase r

/-- Explicit form of `unlisten` when the registration exists. -/
theorem unlisten_eq (s : BusState) (r : Nat) (reg : Reg)
    (hr : alook r s.evs.regsHeap = some reg) :
    EventBus.unlisten s r =
      { s with evs := { s.evs with
          evTimers := unlTimers s reg,
          setsHeap := aset reg.setId (unlMembers s r reg) s.evs.setsHeap,
          evRegistry :=
            if (unlMembers s r reg).isEmpty then adel reg.eventName s.evs.evRegistry
            else s.evs.evRegistry } } := by
  rcases hdt : reg.debounceTimer with _ | tid <;>
    simp only [EventBus.unlisten, unlTimers, unlMembers, hr, hdt] <;>
    split <;> rfl

/-- C8 (amended).  While the event name still maps to the set the
registration was added to (or its captured set is non-empty, or the name
has no entry), the `unlisten` function returned by `on` behaves
idempotently and safely: calling it twice in succession equals calling
it once; removing the last listener of the captured set deletes the
name's map entry; and removing one listener neither removes other
registrations of the same set nor the name's entry while other listeners
remain.  (The unamended claim fails when the name's entry has been
deleted and recreated: see the counterexample.) -/
theorem unlisten_idempotent_amended (s : BusState) (r : Nat) (reg : Reg)
    (hr : alook r s.evs.regsHeap = some reg)
    (hnd : ((alook reg.setId s.evs.setsHeap).getD []).Nodup) :
    EventBus.unlisten (EventBus.unlisten s r) r = EventBus.unlisten s r ∧
    ((alook reg.setId s.evs.setsHeap).getD [] = [r] →
      alook reg.eventName (EventBus.unlisten s r).evs.evRegistry = none) ∧
    (∀ r', r' ≠ r → r' ∈ (alook reg.setId s.evs.setsHeap).getD [] →
      alook reg.eventName s.evs.evRegistry = some reg.setId →
      r' ∈ (alook reg.setId (EventBus.unlisten s r).evs.setsHeap).getD [] ∧
      alook reg.eventName (EventBus.unlisten s r).evs.evRegistry = some reg.setId) := by
  have h1 := unlisten_eq s r reg hr
  have hrnotmem : r ∉ ((alook reg.setId s.evs.setsHeap).getD []).erase r := by
    intro hmem
    exact ((List.Nodup.mem_erase_iff hnd).1 hmem).1 rfl
  refine ⟨?_, ?_, ?_⟩
  · have hr1 : alook r (EventBus.unlisten s r).evs.regsHeap = some reg := by
      rw [h1]
      exact hr
    have h2 := unlisten_eq (EventBus.unlisten s r) r reg hr1
    have hmem2 : unlMembers (EventBus.unlisten s r) r reg = unlMembers s r reg := by
      unfold unlMembers
      rw [h1]
      simp only [alook_aset_self, Option.getD_some]
      exact List.erase_of_not_mem hrnotmem
    have htim2 : unlTimers (EventBus.unlisten s r) reg = unlTimers s reg := by
      rcases hdt : reg.debounceTimer with _ | tid <;>
        simp [unlTimers, hdt, h1, List.filter_filter]
    rw [h2, hmem2, htim2, h1]
    by_cases hM : (unlMembers s r reg).isEmpty <;>
      simp [hM, aset_aset_self, adel_adel_self]
  · intro hset
    rw [h1]
    simp only
    have : unlMembers s r reg = [] := by
      unfold unlMembers
      rw [hset]
      simp
    rw [this]
    simp [alook_adel_self]
  · intro r' hne hmem hreg1
    rw [h1]
    simp only
    have hmem' : r' ∈ unlMembers s r reg := by
      unfold unlMembers
      exact (List.mem_erase_of_ne hne).2 hmem
    have hMne : ¬ (unlMembers s r reg).isEmpty := by
      intro hE
      rw [List.isEmpty_iff] at hE
      rw [hE] at hmem'
      exact List.not_mem_nil _ hmem'
    constructor
    · rw [alook_aset_self]
      simpa using hmem'
    · simp [hMne, hreg1]

/-- First registration of the C8 witness state. -/
def c8Reg0 : Reg :=
  { lid := 0, ok := fun _ => true, opts := {}, eventName := "e", setId := 0,
    hasExecuted := false, lastCallTime := 0, debounceTimer := none }

/-- Second registration of the C8 witness state. -/
def c8Reg1 : Reg :=
  { lid := 1, ok := fun _ => true, opts := {}, eventName := "e", setId := 0,
    hasExecuted := false, lastCallTime := 0, debounceTimer := none }

/-- Concrete bus state used by the C8 witness: two live registrations on
event `e`. -/
def c8State : BusState :=
  { chs := emptyBus.chs,
    evs := { evRegistry := [("e", 0)], setsHeap := [(0, [0, 1])],
             regsHeap := [(0, c8Reg0), (1, c8Reg1)], nextSetId := 1, nextRegId := 2,
             evTimers := [], nextTid := 1 },
    trace := [] }

/-- Witness for the amended C8: double unlisten of registration 0 equals a
single unlisten, and registration 1 and the name's entry survive it. -/
theorem unlisten_idempotent_amended_witness :
    EventBus.unlisten (EventBus.unlisten c8State 0) 0 = EventBus.unlisten c8State 0 ∧
    1 ∈ (alook 0 (EventBus.unlisten c8State 0).evs.setsHeap).getD [] ∧
    alook "e" (EventBus.unlisten c8State 0).evs.evRegistry = some 0 := by
  have h := unlisten_idempotent_amended c8State 0 c8Reg0 rfl (by decide)
  have hc := h.2.2 1 (by decide) (by decide) rfl
  exact ⟨h.1, hc.1, hc.2⟩

/-- Counterexample to C8 as stated: create a registration on `e`, unlisten
it (deleting the entry), re-register `e` with a fresh listener, and call
the first unlisten again — the second call deletes the *recreated* entry,
so a later emit invokes nobody even though listener 1 was never
unlistened.  The unlisten function is therefore not a safe no-op on
repeat calls across entry recreation. -/
theorem unlisten_recreated_entry_counterexample :
    alook "e" (run [Op.onOp "e" 0 (fun _ => true) {}, Op.unlistenOp 0,
                    Op.onOp "e" 1 (fun _ => true) {}]).evs.evRegistry = some 1 ∧
    1 ∈ (alook 1 (run [Op.onOp "e" 0 (fun _ => true) {}, Op.unlistenOp 0,
                       Op.onOp "e" 1 (fun _ => true) {}]).evs.setsHeap).getD [] ∧
    alook "e" (run [Op.onOp "e" 0 (fun _ => true) {}, Op.unlistenOp 0,
                    Op.onOp "e" 1 (fun _ => true) {}, Op.unlistenOp 0]).evs.evRegistry = none ∧
    callCount 1 (run [Op.onOp "e" 0 (fun _ => true) {}, Op.unlistenOp 0,
                      Op.onOp "e" 1 (fun _ => true) {}, Op.unlistenOp 0,
                      Op.emitOp "e" (Val.num 1) 0]).trace = 0 := by
  refine ⟨by decide, by decide, by decide, by decide⟩

/-- Counterexample to C7 as stated: a `once` registration whose listener
throws on every invocation is invoked twice across two emits — the
source sets `hasExecuted` only after the listener returns normally, so a
throwing `once` listener is not removed and fires again. -/
theorem once_throwing_listener_invoked_twice :
    ((alook 0 (run [Op.onceOp "t" 0 (fun _ => false), Op.emitOp "t" (Val.num 1) 10,
                    Op.emitOp "t" (Val.num 2) 20]).evs.regsHeap).map
        (fun reg => reg.opts.once)).getD false = true ∧
    callCount 0 (run [Op.onceOp "t" 0 (fun _ => false), Op.emitOp "t" (Val.num 1) 10,
                      Op.emitOp "t" (Val.num 2) 20]).trace = 2 := by
  refine ⟨by decide, by decide⟩

/-- Concrete channel used by the C6 witness: `autoCleanup`, `onClear`,
session storage, one subscriber. -/
def c6Chan : Channel :=
  { id := 0, value := Val.num 1, storage := StorageMode.session, storageKey := "lithium:a",
    subscribers := [7], ttl := 0, autoCleanup := true, createdAt := 0,
    config := some { storage := StorageMode.session, autoCleanup := true, onClear := true },
    isInitialized := true, ttlTimer := none, debTimer := none, onChangeLastCall := 0 }

/-- Concrete bus state used by the C6 witness. -/
def c6State : BusState :=
  { chs := { chHeap := [(0, c6Chan)], registry := [("a", 0)], nextChId := 1,
             sessionStore := [("lithium:a", Val.num 1)], localStore := [] },
    evs := emptyBus.evs, trace := [] }

/-- Witness for C6: unsubscribing the only subscriber clears channel `a`:
registry entry gone, `onClear` fired, session entry removed. -/
theorem unsub_last_autocleanup_clears_witness :
    alook "a" (EventBus.unsubCb c6State 0 "a" 7).chs.registry = none ∧
    (EventBus.unsubCb c6State 0 "a" 7).trace = [Ev.onClearFired 0] ∧
    alook "lithium:a" (EventBus.unsubCb c6State 0 "a" 7).chs.sessionStore = none := by
  have h := unsub_last_autocleanup_clears c6State "a" 7 0 c6Chan rfl rfl rfl rfl
  refine ⟨h.1, ?_, h.2.2.1 rfl⟩
  rw [h.2.1]
  rfl

theorem onInitCount_append (id : Nat) (a b : List Ev) :
    onInitCount id (a ++ b) = onInitCount id a + onInitCount id b := by
  simp [onInitCount]

theorem callCount_append (r : Nat) (a b : List Ev) :
    callCount r (a ++ b) = callCount r a + callCount r b := by
  simp [callCount]

theorem succCount_append (r : Nat) (a b : List Ev) :
    succCount r (a ++ b) = succCount r a + succCount r b := by
  simp [succCount]

/-- Channel-side events (everything except listener invocations). -/
def isChannelEv : Ev → Bool
  | .listenerCalled _ _ _ _ => false
  | _ => true

theorem callCount_of_channel (r : Nat) (e : List Ev) (h : ∀ x ∈ e, isChannelEv x = true) :
    callCount r e = 0 := by
  simp only [callCount, List.length_eq_zero, List.filter_eq_nil_iff]
  intro x hx
  have := h x hx
  cases x <;> simp_all [isChannelEv, isCallFor]

theorem succCount_of_channel (r : Nat) (e : List Ev) (h : ∀ x ∈ e, isChannelEv x = true) :
    succCount r e = 0 := by
  simp only [succCount, List.length_eq_zero, List.filter_eq_nil_iff]
  intro x hx
  have := h x hx
  cases x <;> simp_all [isChannelEv, isSuccFor]

theorem onInitCount_of_listener (id : Nat) (e : List Ev) (h : ∀ x ∈ e, isChannelEv x = false) :
    onInitCount id e = 0 := by
  simp only [onInitCount, List.length_eq_zero, List.filter_eq_nil_iff]
  intro x hx
  have := h x hx
  cases x <;> simp_all [isChannelEv, isOnInitFor]

theorem succCount_zero_of_callCount_zero (r : Nat) (tr : List Ev) (h : callCount r tr = 0) :
    succCount r tr = 0 := by
  simp only [callCount, List.length_eq_zero, List.filter_eq_nil_iff] at h
  simp only [succCount, List.length_eq_zero, List.filter_eq_nil_iff]
  intro x hx
  have := h x hx
  cases x <;> simp_all [isCallFor, isSuccFor]

theorem no_call_event_of_callCount_zero (r : Nat) (tr : List Ev) (h : callCount r tr = 0)
    (e : Ev) (he : e ∈ tr) (lid : Nat) (d : Val) (okb : Bool)
    (hef : e = Ev.listenerCalled r lid d okb) : False := by
  simp only [callCount, List.length_eq_zero, List.filter_eq_nil_iff] at h
  have := h e he
  rw [hef] at this
  simp [isCallFor] at this

/-- The reachable-state invariant tying the trace counters to the
per-record flags: `onInit` has fired for a channel incarnation exactly
when its `isInitialized` flag is set and the hook exists; a `once`
registration's listener has completed normally exactly when its
`hasExecuted` flag is set, a `once` registration that has executed has
no pending timer and has left its listener set; pending timers are owned
by the registration whose `debounceTimer` field names them; listener
sets are duplicate-free and hold only allocated registrations; traced
listener invocations agree with the registration's listener identity
and success function. -/
structure BusInv (s : BusState) : Prop where
  chFresh : ∀ id, s.chs.nextChId ≤ id → alook id s.chs.chHeap = none
  chCount : ∀ id ch, alook id s.chs.chHeap = some ch →
    onInitCount id s.trace = (if ch.isInitialized && ch.hasOnInitHook then 1 else 0)
  chNone : ∀ id, alook id s.chs.chHeap = none → onInitCount id s.trace = 0
  regFresh : ∀ r, s.evs.nextRegId ≤ r → alook r s.evs.regsHeap = none
  regNone : ∀ r, alook r s.evs.regsHeap = none →
    callCount r s.trace = 0 ∧ ∀ t ∈ s.evs.evTimers, t.regId ≠ r
  tidFresh : ∀ t ∈ s.evs.evTimers, t.tid < s.evs.nextTid
  tidOwn : ∀ r reg, alook r s.evs.regsHeap = some reg → ∀ tid, reg.debounceTimer = some tid →
    tid < s.evs.nextTid ∧ ∀ t ∈ s.evs.evTimers, t.tid = tid → t.regId = r
  timerRef : ∀ t ∈ s.evs.evTimers, ∀ reg, alook t.regId s.evs.regsHeap = some reg →
    reg.debounceTimer = some t.tid ∧ reg.opts.debounce ≠ 0
  onceCount : ∀ r reg, alook r s.evs.regsHeap = some reg → reg.opts.once = true →
    succCount r s.trace = (if reg.hasExecuted then 1 else 0)
  onceNoTimer : ∀ r reg, alook r s.evs.regsHeap = some reg → reg.opts.once = true →
    reg.hasExecuted = true → ∀ t ∈ s.evs.evTimers, t.regId ≠ r
  onceRemoved : ∀ r reg, alook r s.evs.regsHeap = some reg → reg.opts.once = true →
    reg.hasExecuted = true → r ∉ (alook reg.setId s.evs.setsHeap).getD []
  setWF : ∀ sid l, alook sid s.evs.setsHeap = some l →
    l.Nodup ∧ ∀ x ∈ l, x < s.evs.nextRegId
  evOk : ∀ e ∈ s.trace, ∀ r lid d okb, e = Ev.listenerCalled r lid d okb →
    ∀ reg, alook r s.evs.regsHeap = some reg → lid = reg.lid ∧ okb = reg.ok d

theorem inv_emptyBus : BusInv emptyBus := by
  refine ⟨?_, ?_, ?_, ?_, ?_, ?_, ?_, ?_, ?_, ?_, ?_, ?_, ?_⟩ <;>
    simp [emptyBus, alook, onInitCount, callCount, succCount]

/-- A channel-side operation that leaves the instant-event state alone
and appends only channel events preserves the event half of the
invariant; only the three channel clauses remain to be shown. -/
theorem inv_channel_extend (s s' : BusState) (e : List Ev)
    (hevs : s'.evs = s.evs)
    (htr : s'.trace = s.trace ++ e)
    (hE : ∀ x ∈ e, isChannelEv x = true)
    (hchFresh : ∀ id, s'.chs.nextChId ≤ id → alook id s'.chs.chHeap = none)
    (hchCount : ∀ id ch, alook id s'.chs.chHeap = some ch →
      onInitCount id s'.trace = (if ch.isInitialized && ch.hasOnInitHook then 1 else 0))
    (hchNone : ∀ id, alook id s'.chs.chHeap = none → onInitCount id s'.trace = 0)
    (h : BusInv s) : BusInv s' := by
  have hcall : ∀ r, callCount r s'.trace = callCount r s.trace := by
    intro r
    rw [htr, callCount_append, callCount_of_channel r e hE, Nat.add_zero]
  have hsucc : ∀ r, succCount r s'.trace = succCount r s.trace := by
    intro r
    rw [htr, succCount_append, succCount_of_channel r e hE, Nat.add_zero]
  refine ⟨hchFresh, hchCount, hchNone, ?_, ?_, ?_, ?_, ?_, ?_, ?_, ?_, ?_, ?_⟩
  · rw [hevs]; exact h.regFresh
  · intro r hr
    rw [hevs] at hr ⊢
    rw [hcall]
    exact h.regNone r hr
  · rw [hevs]; exact h.tidFresh
  · rw [hevs]; exact h.tidOwn
  · rw [hevs]; exact h.timerRef
  · intro r reg hr ho
    rw [hevs] at hr
    rw [hsucc]
    exact h.onceCount r reg hr ho
  · rw [hevs]; exact h.onceNoTimer
  · rw [hevs]; exact h.onceRemoved
  · rw [hevs]; exact h.setWF
  · intro x hx r lid d okb hxe reg hreg
    rw [hevs] at hreg
    rw [htr] at hx
    rcases List.mem_append.1 hx with h1 | h2
    · exact h.evOk x h1 r lid d okb hxe reg hreg
    · exfalso
      have := hE x h2
      rw [hxe] at this
      simp [isChannelEv] at this

/-- An event-side operation that leaves the channel state alone and
appends only listener events preserves the channel half of the
invariant; the event clauses remain to be shown. -/
theorem inv_event_extend (s s' : BusState) (e : List Ev)
    (hchs : s'.chs = s.chs)
    (htr : s'.trace = s.trace ++ e)
    (hE : ∀ x ∈ e, isChannelEv x = false)
    (hrest : BusInv s →
      (∀ r, s'.evs.nextRegId ≤ r → alook r s'.evs.regsHeap = none) ∧
      (∀ r, alook r s'.evs.regsHeap = none →
        callCount r s'.trace = 0 ∧ ∀ t ∈ s'.evs.evTimers, t.regId ≠ r) ∧
      (∀ t ∈ s'.evs.evTimers, t.tid < s'.evs.nextTid) ∧
      (∀ r reg, alook r s'.evs.regsHeap = some reg → ∀ tid, reg.debounceTimer = some tid →
        tid < s'.evs.nextTid ∧ ∀ t ∈ s'.evs.evTimers, t.tid = tid → t.regId = r) ∧
      (∀ t ∈ s'.evs.evTimers, ∀ reg, alook t.regId s'.evs.regsHeap = some reg →
        reg.debounceTimer = some t.tid ∧ reg.opts.debounce ≠ 0) ∧
      (∀ r reg, alook r s'.evs.regsHeap = some reg → reg.opts.once = true →
        succCount r s'.trace = (if reg.hasExecuted then 1 else 0)) ∧
      (∀ r reg, alook r s'.evs.regsHeap = some reg → reg.opts.once = true →
        reg.hasExecuted = true → ∀ t ∈ s'.evs.evTimers, t.regId ≠ r) ∧
      (∀ r reg, alook r s'.evs.regsHeap = some reg → reg.opts.once = true →
        reg.hasExecuted = true → r ∉ (alook reg.setId s'.evs.setsHeap).getD []) ∧
      (∀ sid l, alook sid s'.evs.setsHeap = some l →
        l.Nodup ∧ ∀ x ∈ l, x < s'.evs.nextRegId) ∧
      (∀ x ∈ s'.trace, ∀ r lid d okb, x = Ev.listenerCalled r lid d okb →
        ∀ reg, alook r s'.evs.regsHeap = some reg → lid = reg.lid ∧ okb = reg.ok d))
    (h : BusInv s) : BusInv s' := by
  obtain ⟨h1, h2, h3, h4, h5, h6, h7, h8, h9, h10⟩ := hrest h
  have hinit : ∀ id, onInitCount id s'.trace = onInitCount id s.trace := by
    intro id
    rw [htr, onInitCount_append, onInitCount_of_listener id e hE, Nat.add_zero]
  refine ⟨?_, ?_, ?_, h1, h2, h3, h4, h5, h6, h7, h8, h9, h10⟩
  · rw [hchs]; exact h.chFresh
  · intro id ch hch
    rw [hchs] at hch
    rw [hinit]
    exact h.chCount id ch hch
  · intro id hch
    rw [hchs] at hch
    rw [hinit]
    exact h.chNone id hch

theorem foldl_preserve {α : Type} (p : BusState → Prop) (f : BusState → α → BusState)
    (hf : ∀ s a, p s → p (f s a)) : ∀ (l : List α) (s : BusState), p s → p (l.foldl f s) := by
  intro l
  induction l with
  | nil => intro s hs; exact hs
  | cons hd tl ih =>
    intro s hs
    exact ih (f s hd) (hf s hd hs)

theorem onInitCount_single (i j : Nat) (v : Val) :
    onInitCount j [Ev.onInitFired i v] = if i = j then 1 else 0 := by
  by_cases h : i = j <;> simp [onInitCount, isOnInitFor, h]

/-- The value a freshly created channel resolves to (stored value wins
over `initialValue`). -/
def chResolved (s : BusState) (n : String) (cfg : Option Config) : Val :=
  let st := (cfg.map (fun c => c.storage)).getD StorageMode.memory
  let skey := (cfg.bind (fun c => c.storageKey)).getD ("lithium:" ++ n)
  let stored := getFromStorage s.chs skey st
  if stored ≠ Val.undef then stored else (cfg.map (fun c => c.initialValue)).getD Val.undef

/-- The events appended by channel creation: one `onInit` when the
resolved value is non-absent and the hook is configured. -/
def chCreateEvs (s : BusState) (n : String) (cfg : Option Config) : List Ev :=
  if !(chResolved s n cfg).isAbsent && ((cfg.map (fun c => c.onInit)).getD false)
  then [Ev.onInitFired s.chs.nextChId (chResolved s n cfg)] else []

/-- The record built by channel creation. -/
def chCreateRecord (s : BusState) (n : String) (cfg : Option Config) (now : Nat) : Channel :=
  { id := s.chs.nextChId, value := chResolved s n cfg,
    storage := (cfg.map (fun c => c.storage)).getD StorageMode.memory,
    storageKey := (cfg.bind (fun c => c.storageKey)).getD ("lithium:" ++ n),
    subscribers := [],
    ttl := (cfg.map (fun c => c.ttl)).getD 0,
    autoCleanup := (cfg.map (fun c => c.autoCleanup)).getD false,
    createdAt := now, config := cfg,
    isInitialized := !(chResolved s n cfg).isAbsent,
    ttlTimer := if (cfg.map (fun c => c.ttl)).getD 0 ≠ 0
                then some (now + (cfg.map (fun c => c.ttl)).getD 0) else none,
    debTimer := none, onChangeLastCall := 0 }

theorem channelCreate_eq (s : BusState) (n : String) (cfg : Option Config) (now : Nat) :
    EventBus.channelCreate s n cfg now =
      { s with
        chs := { chHeap := aset s.chs.nextChId (chCreateRecord s n cfg now) s.chs.chHeap,
                 registry := aset n s.chs.nextChId s.chs.registry,
                 nextChId := s.chs.nextChId + 1,
                 sessionStore := s.chs.sessionStore, localStore := s.chs.localStore },
        trace := s.trace ++ chCreateEvs s n cfg } := rfl

theorem chCreateEvs_channel (s : BusState) (n : String) (cfg : Option Config) :
    ∀ x ∈ chCreateEvs s n cfg, isChannelEv x = true := by
  intro x hx
  unfold chCreateEvs at hx
  rcases (by split at hx <;> simp_all :
    x = Ev.onInitFired s.chs.nextChId (chResolved s n cfg)) with rfl
  rfl

theorem chCreateEvs_count_self (s : BusState) (n : String) (cfg : Option Config) :
    onInitCount s.chs.nextChId (chCreateEvs s n cfg) =
      if !(chResolved s n cfg).isAbsent && ((cfg.map (fun c => c.onInit)).getD false)
      then 1 else 0 := by
  unfold chCreateEvs
  split
  · rw [onInitCount_single, if_pos rfl]
  · rfl

theorem chCreateEvs_count_ne (s : BusState) (n : String) (cfg : Option Config) (j : Nat)
    (hne : j ≠ s.chs.nextChId) :
    onInitCount j (chCreateEvs s n cfg) = 0 := by
  unfold chCreateEvs
  split
  · rw [onInitCount_single, if_neg (fun hh => hne hh.symm)]
  · rfl

theorem inv_channelCreate (s : BusState) (n : String) (cfg : Option Config) (now : Nat)
    (h : BusInv s) : BusInv (EventBus.channelCreate s n cfg now) := by
  rw [channelCreate_eq]
  refine inv_channel_extend s _ (chCreateEvs s n cfg) rfl rfl (chCreateEvs_channel s n cfg) ?_ ?_ ?_ h
  · intro id hid
    dsimp only at hid ⊢
    rw [alook_aset_ne _ _ _ _ (by omega : s.chs.nextChId ≠ id)]
    exact h.chFresh id (by omega)
  · intro id ch hch
    dsimp only at hch ⊢
    by_cases hid : id = s.chs.nextChId
    · rw [hid] at hch ⊢
      rw [alook_aset_self] at hch
      injection hch with hch'
      have hzero : onInitCount s.chs.nextChId s.trace = 0 :=
        h.chNone _ (h.chFresh _ (le_refl _))
      rw [onInitCount_append, hzero, Nat.zero_add, chCreateEvs_count_self, ← hch']
      simp [chCreateRecord, Channel.hasOnInitHook]
    · rw [alook_aset_ne _ _ _ _ (fun hh => hid hh.symm)] at hch
      rw [onInitCount_append, chCreateEvs_count_ne s n cfg id hid, Nat.add_zero]
      exact h.chCount id ch hch
  · intro id hch
    dsimp only at hch ⊢
    by_cases hid : id = s.chs.nextChId
    · rw [hid, alook_aset_self] at hch
      exact absurd hch (by simp)
    · rw [alook_aset_ne _ _ _ _ (fun hh => hid hh.symm)] at hch
      rw [onInitCount_append, chCreateEvs_count_ne s n cfg id hid, Nat.add_zero]
      exact h.chNone id hch

theorem onInitCount_warn (j i : Nat) (n : String) (v : Val) :
    onInitCount j [Ev.warnValidation i n v] = 0 := rfl

theorem onInitCount_onClear (j i : Nat) :
    onInitCount j [Ev.onClearFired i] = 0 := rfl

theorem pubEvsOf_channel (id : Nat) (ch : Channel) (v : Val) (now : Nat) :
    ∀ x ∈ pubEvsOf id ch v now, isChannelEv x = true := by
  intro x hx
  unfold pubEvsOf at hx
  rcases List.mem_append.1 hx with h1 | h2
  · rcases List.mem_append.1 h1 with h3 | h4
    · split at h3 <;> simp_all [isChannelEv]
    · split at h4
      · rcases execOnChange_events id (pubChanMid ch v) (chTransform ch v) ch.value now with
          he | he <;> rw [he] at h4 <;> simp_all [isChannelEv]
      · simp_all
  · rcases List.mem_map.1 h2 with ⟨q, _, hq⟩
    rw [← hq]
    rfl

theorem pubEvsOf_count_self (id : Nat) (ch : Channel) (v : Val) (now : Nat) :
    onInitCount id (pubEvsOf id ch v now) =
      if pubFireInit ch v && ch.hasOnInitHook then 1 else 0 := by
  unfold pubEvsOf
  rw [onInitCount_append, onInitCount_append]
  have h2 : onInitCount id
      (if ch.hasOnChange then (execOnChange id (pubChanMid ch v) (chTransform ch v) ch.value now).2
       else []) = 0 := by
    split
    · rcases execOnChange_events id (pubChanMid ch v) (chTransform ch v) ch.value now with
        he | he <;> rw [he] <;> rfl
    · rfl
  have h3 : onInitCount id
      (ch.subscribers.map (fun sub => Ev.subscriberCalled id sub (chTransform ch v))) = 0 := by
    simp only [onInitCount, List.length_eq_zero, List.filter_eq_nil_iff]
    intro x hx
    rcases List.mem_map.1 hx with ⟨q, _, hq⟩
    rw [← hq]
    simp [isOnInitFor]
  rw [h2, h3, Nat.add_zero]
  split
  · rw [onInitCount_single, if_pos rfl]
  · rfl

theorem pubEvsOf_count_ne (id : Nat) (ch : Channel) (v : Val) (now j : Nat) (hne : j ≠ id) :
    onInitCount j (pubEvsOf id ch v now) = 0 := by
  unfold pubEvsOf
  rw [onInitCount_append, onInitCount_append]
  have h1 : onInitCount j
      (if pubFireInit ch v && ch.hasOnInitHook then [Ev.onInitFired id (chTransform ch v)]
       else []) = 0 := by
    split
    · rw [onInitCount_single, if_neg (fun hh => hne hh.symm)]
    · rfl
  have h2 : onInitCount j
      (if ch.hasOnChange then (execOnChange id (pubChanMid ch v) (chTransform ch v) ch.value now).2
       else []) = 0 := by
    split
    · rcases execOnChange_events id (pubChanMid ch v) (chTransform ch v) ch.value now with
        he | he <;> rw [he] <;> rfl
    · rfl
  have h3 : onInitCount j
      (ch.subscribers.map (fun sub => Ev.subscriberCalled id sub (chTransform ch v))) = 0 := by
    simp only [onInitCount, List.length_eq_zero, List.filter_eq_nil_iff]
    intro x hx
    rcases List.mem_map.1 hx with ⟨q, _, hq⟩
    rw [← hq]
    simp [isOnInitFor]
  rw [h1, h2, h3]


theorem removeFromStorage_nextChId (c : ChState) (k : String) (m : StorageMode) :
    (removeFromStorage c k m).nextChId = c.nextChId := by
  cases m <;> rfl

/-- A channel-record update that keeps `isInitialized` and `config` and
appends only `onInit`-free channel events preserves the invariant. -/
theorem inv_update_preserving (s s' : BusState) (id : Nat) (ch ch' : Channel) (e : List Ev)
    (hch : alook id s.chs.chHeap = some ch)
    (hheap : s'.chs.chHeap = aset id ch' s.chs.chHeap)
    (hnext : s'.chs.nextChId = s.chs.nextChId)
    (hevs : s'.evs = s.evs)
    (htr : s'.trace = s.trace ++ e)
    (hE : ∀ x ∈ e, isChannelEv x = true)
    (hEinit : ∀ j, onInitCount j e = 0)
    (hinit : ch'.isInitialized = ch.isInitialized)
    (hcfg : ch'.config = ch.config)
    (h : BusInv s) : BusInv s' := by
  have hidlt : ¬ s.chs.nextChId ≤ id := by
    intro hle
    rw [h.chFresh id hle] at hch
    exact Option.noConfusion hch
  refine inv_channel_extend s s' e hevs htr hE ?_ ?_ ?_ h
  · intro j hj
    rw [hnext] at hj
    rw [hheap, alook_aset_ne _ _ _ _ (by omega : id ≠ j)]
    exact h.chFresh j hj
  · intro j chj hchj
    rw [hheap] at hchj
    rw [htr, onInitCount_append, hEinit j, Nat.add_zero]
    by_cases hj : j = id
    · rw [hj, alook_aset_self] at hchj
      injection hchj with hchj'
      rw [hj, ← hchj']
      have hc := h.chCount id ch hch
      rw [hc, hinit]
      have hhk : ch'.hasOnInitHook = ch.hasOnInitHook := by
        simp [Channel.hasOnInitHook, hcfg]
      rw [hhk]
    · rw [alook_aset_ne _ _ _ _ (fun hh => hj hh.symm)] at hchj
      exact h.chCount j chj hchj
  · intro j hchj
    rw [hheap] at hchj
    rw [htr, onInitCount_append, hEinit j, Nat.add_zero]
    by_cases hj : j = id
    · rw [hj, alook_aset_self] at hchj
      exact absurd hchj (by simp)
    · rw [alook_aset_ne _ _ _ _ (fun hh => hj hh.symm)] at hchj
      exact h.chNone j hchj

theorem inv_publishCore (s : BusState) (id : Nat) (ch : Channel) (v : Val) (now : Nat)
    (hch : alook id s.chs.chHeap = some ch) (h : BusInv s) :
    BusInv (EventBus.publishCore s id ch v now) := by
  have hidlt : ¬ s.chs.nextChId ≤ id := by
    intro hle
    rw [h.chFresh id hle] at hch
    exact Option.noConfusion hch
  rw [publishCore_eq]
  refine inv_channel_extend s _ (pubEvsOf id ch v now) rfl rfl (pubEvsOf_channel id ch v now)
    ?_ ?_ ?_ h
  · intro j hj
    dsimp only at hj ⊢
    rw [alook_aset_ne _ _ _ _ (by omega : id ≠ j)]
    exact h.chFresh j hj
  · intro j chj hchj
    dsimp only at hchj ⊢
    by_cases hj : j = id
    · rw [hj, alook_aset_self] at hchj
      injection hchj with hchj'
      rw [hj, onInitCount_append, pubEvsOf_count_self, ← hchj']
      rw [h.chCount id ch hch, pubChanFinal_isInitialized]
      have hhook : (pubChanFinal id ch v now).hasOnInitHook = ch.hasOnInitHook := by
        simp [Channel.hasOnInitHook, pubChanFinal_config]
      rw [hhook]
      have hab : pubFireInit ch v = true → ch.isInitialized = false := by
        intro hb
        unfold pubFireInit at hb
        rcases Bool.and_eq_true_iff.1 hb with ⟨hb1, _⟩
        simpa using hb1
      by_cases ha : ch.isInitialized <;> by_cases hb : pubFireInit ch v <;>
        by_cases hh : ch.hasOnInitHook <;> simp_all
    · rw [alook_aset_ne _ _ _ _ (fun hh => hj hh.symm)] at hchj
      rw [onInitCount_append, pubEvsOf_count_ne id ch v now j hj, Nat.add_zero]
      exact h.chCount j chj hchj
  · intro j hchj
    dsimp only at hchj ⊢
    by_cases hj : j = id
    · rw [hj, alook_aset_self] at hchj
      exact absurd hchj (by simp)
    · rw [alook_aset_ne _ _ _ _ (fun hh => hj hh.symm)] at hchj
      rw [onInitCount_append, pubEvsOf_count_ne id ch v now j hj, Nat.add_zero]
      exact h.chNone j hchj

theorem inv_publish (s : BusState) (n : String) (v : Val) (now : Nat) (h : BusInv s) :
    BusInv (EventBus.publish s n v now) := by
  rcases hreg : alook n s.chs.registry with _ | id
  · have hstep : EventBus.publish s n v now =
        EventBus.channelCreate s n (some { initialValue := v }) now := by
      simp [EventBus.publish, hreg]
    rw [hstep]
    exact inv_channelCreate s n (some { initialValue := v }) now h
  · rcases hch : alook id s.chs.chHeap with _ | ch
    · have hstep : EventBus.publish s n v now = s := by
        simp [EventBus.publish, hreg, hch]
      rw [hstep]
      exact h
    · rcases hv : ch.validateF with _ | f
      · rw [publish_eq_core s n v now id ch hreg hch (by simp [chValidateOk, hv])]
        exact inv_publishCore s id ch v now hch h
      · by_cases hf : f v
        · rw [publish_eq_core s n v now id ch hreg hch (by simp [chValidateOk, hv, hf])]
          exact inv_publishCore s id ch v now hch h
        · have hstep : EventBus.publish s n v now =
              { s with trace := s.trace ++ [Ev.warnValidation id n v] } := by
            simp [EventBus.publish, hreg, hch, hv, hf]
          rw [hstep]
          refine inv_channel_extend s _ [Ev.warnValidation id n v] rfl rfl ?_ ?_ ?_ ?_ h
          · intro x hx
            rcases List.mem_singleton.1 hx with rfl
            rfl
          · exact h.chFresh
          · intro j chj hchj
            rw [onInitCount_append, onInitCount_warn, Nat.add_zero]
            exact h.chCount j chj hchj
          · intro j hchj
            rw [onInitCount_append, onInitCount_warn, Nat.add_zero]
            exact h.chNone j hchj

theorem inv_channelGet (s : BusState) (n : String) (cfg : Option Config) (now : Nat)
    (h : BusInv s) : BusInv (EventBus.channelGet s n cfg now) := by
  unfold EventBus.channelGet
  split
  · exact h
  · exact inv_channelCreate s n cfg now h

theorem inv_clear (s : BusState) (n : String) (h : BusInv s) : BusInv (EventBus.clear s n) := by
  rcases hreg : alook n s.chs.registry with _ | id
  · have hstep : EventBus.clear s n = s := by simp [EventBus.clear, hreg]
    rw [hstep]
    exact h
  · rcases hch : alook id s.chs.chHeap with _ | ch
    · have hstep : EventBus.clear s n = s := by simp [EventBus.clear, hreg, hch]
      rw [hstep]
      exact h
    · have hstep : EventBus.clear s n = { s with
          chs := { chHeap :=
                     aset id { ch with subscribers := [], ttlTimer := none, debTimer := none }
                       s.chs.chHeap,
                   registry := adel n s.chs.registry,
                   nextChId := s.chs.nextChId,
                   sessionStore := (removeFromStorage s.chs ch.storageKey ch.storage).sessionStore,
                   localStore := (removeFromStorage s.chs ch.storageKey ch.storage).localStore },
          trace := s.trace ++ (if ch.hasOnClearHook then [Ev.onClearFired id] else []) } := by
        simp [EventBus.clear, hreg, hch, removeFromStorage_chHeap, removeFromStorage_registry,
              removeFromStorage_nextChId]
      rw [hstep]
      refine inv_update_preserving s _ id ch
        { ch with subscribers := [], ttlTimer := none, debTimer := none }
        (if ch.hasOnClearHook then [Ev.onClearFired id] else []) hch rfl rfl rfl rfl ?_ ?_ rfl rfl h
      · intro x hx
        split at hx
        · rcases List.mem_singleton.1 hx with rfl
          rfl
        · simp at hx
      · intro j
        split
        · exact onInitCount_onClear j id
        · rfl


/-- The channel record after `subscribe` adds a callback (JS `Set.add`). -/
def addSub (subId : Nat) (ch : Channel) : Channel :=
  let subs := if subId ∈ ch.subscribers then ch.subscribers else ch.subscribers ++ [subId]
  { ch with subscribers := subs }

theorem inv_subscribe (s : BusState) (n : String) (subId now : Nat) (h : BusInv s) :
    BusInv (EventBus.subscribe s n subId now) := by
  have step1 : BusInv (if (alook n s.chs.registry).isSome then s
      else EventBus.channelCreate s n none now) := by
    split
    · exact h
    · exact inv_channelCreate s n none now h
  generalize hs1 : (if (alook n s.chs.registry).isSome then s
      else EventBus.channelCreate s n none now) = s1 at step1
  have hsub : EventBus.subscribe s n subId now =
      (match alook n s1.chs.registry with
       | none => s1
       | some id =>
         match alook id s1.chs.chHeap with
         | none => s1
         | some ch =>
           { s1 with chs := { s1.chs with chHeap := aset id (addSub subId ch) s1.chs.chHeap } }) := by
    unfold EventBus.subscribe addSub
    rw [hs1]
  rw [hsub]
  rcases hreg : alook n s1.chs.registry with _ | id
  · exact step1
  · dsimp only
    rcases hch : alook id s1.chs.chHeap with _ | ch
    · exact step1
    · dsimp only
      refine inv_update_preserving s1 _ id ch (addSub subId ch) [] hch rfl rfl rfl (by simp)
        (by simp) (fun j => rfl) rfl rfl step1

/-- The channel record after the unsubscribe closure deletes a callback. -/
def eraseSub (subId : Nat) (ch : Channel) : Channel :=
  { ch with subscribers := ch.subscribers.erase subId }

theorem inv_unsubCb (s : BusState) (chId : Nat) (n : String) (subId : Nat) (h : BusInv s) :
    BusInv (EventBus.unsubCb s chId n subId) := by
  rcases hch : alook chId s.chs.chHeap with _ | ch
  · have hstep : EventBus.unsubCb s chId n subId = s := by simp [EventBus.unsubCb, hch]
    rw [hstep]
    exact h
  · have h1 : BusInv
        { s with chs := { s.chs with chHeap := aset chId (eraseSub subId ch) s.chs.chHeap } } := by
      refine inv_update_preserving s _ chId ch (eraseSub subId ch) [] hch rfl rfl rfl (by simp)
        (by simp) (fun j => rfl) rfl rfl h
    by_cases hac : ch.autoCleanup && (ch.subscribers.erase subId).isEmpty
    · have hstep : EventBus.unsubCb s chId n subId =
          EventBus.clear
            { s with chs := { s.chs with chHeap := aset chId (eraseSub subId ch) s.chs.chHeap } }
            n := by
        simp [EventBus.unsubCb, hch, hac, eraseSub]
      rw [hstep]
      exact inv_clear _ n h1
    · have hstep : EventBus.unsubCb s chId n subId =
          { s with chs := { s.chs with chHeap := aset chId (eraseSub subId ch) s.chs.chHeap } } := by
        simp [EventBus.unsubCb, hch, hac, eraseSub]
      rw [hstep]
      exact h1

theorem inv_fireTTL (s : BusState) (n : String) (now : Nat) (h : BusInv s) :
    BusInv (EventBus.fireTTL s n now) := by
  rcases hc : (alook n s.chs.registry).bind (fun id => alook id s.chs.chHeap) with _ | ch
  · have hstep : EventBus.fireTTL s n now = s := by simp [EventBus.fireTTL, hc]
    rw [hstep]
    exact h
  · rcases htt : ch.ttlTimer with _ | t
    · have hstep : EventBus.fireTTL s n now = s := by simp [EventBus.fireTTL, hc, htt]
      rw [hstep]
      exact h
    · by_cases hle : t ≤ now
      · have hstep : EventBus.fireTTL s n now = EventBus.clear s n := by
          simp [EventBus.fireTTL, hc, htt, hle]
        rw [hstep]
        exact inv_clear s n h
      · have hstep : EventBus.fireTTL s n now = s := by simp [EventBus.fireTTL, hc, htt, hle]
        rw [hstep]
        exact h

/-- The channel record after a fired `onChange` debounce timer. -/
def clearDebRecord (ch : Channel) : Channel :=
  { ch with debTimer := none }

theorem inv_fireChDeb (s : BusState) (n : String) (now : Nat) (h : BusInv s) :
    BusInv (EventBus.fireChDeb s n now) := by
  rcases hreg : alook n s.chs.registry with _ | id
  · have hstep : EventBus.fireChDeb s n now = s := by simp [EventBus.fireChDeb, hreg]
    rw [hstep]
    exact h
  · rcases hch : alook id s.chs.chHeap with _ | ch
    · have hstep : EventBus.fireChDeb s n now = s := by simp [EventBus.fireChDeb, hreg, hch]
      rw [hstep]
      exact h
    · rcases hdt : ch.debTimer with _ | d
      · have hstep : EventBus.fireChDeb s n now = s := by
          simp [EventBus.fireChDeb, hreg, hch, hdt]
        rw [hstep]
        exact h
      · by_cases hle : d.fireAt ≤ now
        · have hstep : EventBus.fireChDeb s n now =
              { s with chs := { s.chs with chHeap := aset id (clearDebRecord ch) s.chs.chHeap },
                       trace := s.trace ++ [Ev.onChangeFired id d.newV d.oldV] } := by
            simp [EventBus.fireChDeb, hreg, hch, hdt, hle, clearDebRecord]
          rw [hstep]
          refine inv_update_preserving s _ id ch (clearDebRecord ch)
            [Ev.onChangeFired id d.newV d.oldV] hch rfl rfl rfl rfl ?_ (fun j => rfl) rfl rfl h
          intro x hx
          rcases List.mem_singleton.1 hx with rfl
          rfl
        · have hstep : EventBus.fireChDeb s n now = s := by
            simp [EventBus.fireChDeb, hreg, hch, hdt, hle]
          rw [hstep]
          exact h

theorem inv_clearAllB (s : BusState) (filter : Option StorageMode) (h : BusInv s) :
    BusInv (EventBus.clearAllB s filter) := by
  unfold EventBus.clearAllB
  refine foldl_preserve BusInv _ ?_ _ s h
  intro s' a hs'
  rcases filter with _ | m
  · exact inv_clear s' a hs'
  · dsimp only
    rcases hc : (alook a s'.chs.registry).bind (fun id => alook id s'.chs.chHeap) with _ | ch
    · exact hs'
    · dsimp only
      split
      · exact inv_clear s' a hs'
      · exact hs'

theorem inv_off (s : BusState) (n : String) (h : BusInv s) : BusInv (EventBus.off s n) :=
  ⟨h.chFresh, h.chCount, h.chNone, h.regFresh, h.regNone, h.tidFresh, h.tidOwn, h.timerRef,
   h.onceCount, h.onceNoTimer, h.onceRemoved, h.setWF, h.evOk⟩

theorem unlTimers_subset (s : BusState) (reg : Reg) (t : EvTimer)
    (ht : t ∈ unlTimers s reg) : t ∈ s.evs.evTimers := by
  unfold unlTimers at ht
  rcases hdt : reg.debounceTimer with _ | tid <;> rw [hdt] at ht
  · exact ht
  · exact (List.mem_filter.1 ht).1

theorem inv_unlisten (s : BusState) (r : Nat) (h : BusInv s) : BusInv (EventBus.unlisten s r) := by
  rcases hr : alook r s.evs.regsHeap with _ | reg
  · have hstep : EventBus.unlisten s r = s := by simp [EventBus.unlisten, hr]
    rw [hstep]
    exact h
  · rw [unlisten_eq s r reg hr]
    refine ⟨h.chFresh, h.chCount, h.chNone, h.regFresh, ?_, ?_, ?_, ?_, h.onceCount, ?_, ?_, ?_,
      h.evOk⟩
    · intro r' hr'
      refine ⟨(h.regNone r' hr').1, ?_⟩
      intro t ht
      exact (h.regNone r' hr').2 t (unlTimers_subset s reg t ht)
    · intro t ht
      exact h.tidFresh t (unlTimers_subset s reg t ht)
    · intro r' reg' hr' tid htid
      refine ⟨(h.tidOwn r' reg' hr' tid htid).1, ?_⟩
      intro t ht
      exact (h.tidOwn r' reg' hr' tid htid).2 t (unlTimers_subset s reg t ht)
    · intro t ht reg' hr'
      exact h.timerRef t (unlTimers_subset s reg t ht) reg' hr'
    · intro r' reg' hr' ho hex t ht
      exact h.onceNoTimer r' reg' hr' ho hex t (unlTimers_subset s reg t ht)
    · intro r' reg' hr' ho hex
      dsimp only
      by_cases hsid : reg'.setId = reg.setId
      · rw [hsid, alook_aset_self]
        intro hmem
        unfold unlMembers at hmem
        have hmem' := List.mem_of_mem_erase hmem
        refine h.onceRemoved r' reg' hr' ho hex ?_
        rw [hsid]
        simpa using hmem'
      · rw [alook_aset_ne _ _ _ _ (fun hh => hsid hh.symm)]
        exact h.onceRemoved r' reg' hr' ho hex
    · intro sid l hl
      dsimp only at hl
      by_cases hsid : sid = reg.setId
      · rw [hsid, alook_aset_self] at hl
        injection hl with hl'
        constructor
        · rw [← hl']
          unfold unlMembers
          rcases hlook : alook reg.setId s.evs.setsHeap with _ | l0
          · simp
          · simp only [Option.getD_some]
            exact ((h.setWF reg.setId l0 hlook).1).erase r
        · intro x hx
          rw [← hl'] at hx
          unfold unlMembers at hx
          rcases hlook : alook reg.setId s.evs.setsHeap with _ | l0
          · rw [hlook] at hx
            simp at hx
          · rw [hlook] at hx
            simp only [Option.getD_some] at hx
            exact (h.setWF reg.setId l0 hlook).2 x (List.mem_of_mem_erase hx)
      · rw [alook_aset_ne _ _ _ _ (fun hh => hsid hh.symm)] at hl
        exact h.setWF sid l hl

theorem callCount_single (r' r lid : Nat) (d : Val) (b : Bool) :
    callCount r' [Ev.listenerCalled r lid d b] = if r = r' then 1 else 0 := by
  by_cases hh : r = r' <;> simp [callCount, isCallFor, hh]

theorem succCount_single (r' r lid : Nat) (d : Val) (b : Bool) :
    succCount r' [Ev.listenerCalled r lid d b] = if r = r' ∧ b = true then 1 else 0 := by
  by_cases h1 : r = r' <;> by_cases h2 : b = true <;> simp [succCount, isSuccFor, h1, h2]

theorem onInitCount_listener_single (j r lid : Nat) (d : Val) (b : Bool) :
    onInitCount j [Ev.listenerCalled r lid d b] = 0 := rfl

theorem alook_some_lt (s : BusState) (r : Nat) (reg : Reg)
    (hr : alook r s.evs.regsHeap = some reg) (h : BusInv s) : r < s.evs.nextRegId := by
  by_contra hcon
  rw [h.regFresh r (by omega)] at hr
  exact Option.noConfusion hr

theorem inv_executeListener_once (s : BusState) (r : Nat) (td : Val) (reg : Reg)
    (hr : alook r s.evs.regsHeap = some reg)
    (hok : reg.ok td = true)
    (honce : reg.opts.once = true)
    (hnt : ∀ t ∈ s.evs.evTimers, t.regId ≠ r)
    (hex0 : reg.hasExecuted = false)
    (hne' : ∀ r', alook r' s.evs.regsHeap = none → r ≠ r')
    (h : BusInv s) : BusInv (EventBus.executeListener s r td) := by
  have hstep : EventBus.executeListener s r td =
      EventBus.unlisten
        { s with
          evs := { s.evs with
            regsHeap := aset r { reg with hasExecuted := true } s.evs.regsHeap },
          trace := s.trace ++ [Ev.listenerCalled r reg.lid td true] } r := by
    simp [EventBus.executeListener, hr, hok, honce]
  have hr2 : alook r
      ({ s with
         evs := { s.evs with
           regsHeap := aset r { reg with hasExecuted := true } s.evs.regsHeap },
         trace := s.trace ++ [Ev.listenerCalled r reg.lid td true] } : BusState).evs.regsHeap =
      some { reg with hasExecuted := true } := alook_aset_self _ _ _
  rw [hstep, unlisten_eq _ r { reg with hasExecuted := true } hr2]
  have hrlt : r < s.evs.nextRegId := alook_some_lt s r reg hr h
  have hnodup : ((alook reg.setId s.evs.setsHeap).getD []).Nodup := by
    rcases hlk : alook reg.setId s.evs.setsHeap with _ | l0
    · simp
    · simpa using (h.setWF reg.setId l0 hlk).1
  have hsub : ∀ t, t ∈ unlTimers
      { s with
        evs := { s.evs with
          regsHeap := aset r { reg with hasExecuted := true } s.evs.regsHeap },
        trace := s.trace ++ [Ev.listenerCalled r reg.lid td true] }
      { reg with hasExecuted := true } → t ∈ s.evs.evTimers := by
    intro t ht
    exact unlTimers_subset _ _ t ht
  refine ⟨h.chFresh, ?_, ?_, ?_, ?_, ?_, ?_, ?_, ?_, ?_, ?_, ?_, ?_⟩
  · intro j ch hch
    dsimp only at hch ⊢
    rw [onInitCount_append, onInitCount_listener_single, Nat.add_zero]
    exact h.chCount j ch hch
  · intro j hch
    dsimp only at hch ⊢
    rw [onInitCount_append, onInitCount_listener_single, Nat.add_zero]
    exact h.chNone j hch
  · intro r' hge
    dsimp only at hge ⊢
    rw [alook_aset_ne _ _ _ _ (by omega : r ≠ r')]
    exact h.regFresh r' hge
  · intro r' hr'
    dsimp only at hr' ⊢
    by_cases hrr : r' = r
    · rw [hrr, alook_aset_self] at hr'
      exact Option.noConfusion hr'
    · rw [alook_aset_ne _ _ _ _ (fun hh => hrr hh.symm)] at hr'
      refine ⟨?_, ?_⟩
      · rw [callCount_append, callCount_single, if_neg (hne' r' hr'), Nat.add_zero]
        exact (h.regNone r' hr').1
      · intro t ht
        exact (h.regNone r' hr').2 t (hsub t ht)
  · intro t ht
    dsimp only at ht ⊢
    exact h.tidFresh t (hsub t ht)
  · intro r' reg' hr' tid htid
    dsimp only at hr' ⊢
    by_cases hrr : r' = r
    · rw [hrr, alook_aset_self] at hr'
      injection hr' with hreg'
      have htid' : reg.debounceTimer = some tid := by
        rw [← hreg'] at htid
        exact htid
      refine ⟨(h.tidOwn r reg hr tid htid').1, ?_⟩
      intro t ht htt
      rw [hrr]
      exact (h.tidOwn r reg hr tid htid').2 t (hsub t ht) htt
    · rw [alook_aset_ne _ _ _ _ (fun hh => hrr hh.symm)] at hr'
      refine ⟨(h.tidOwn r' reg' hr' tid htid).1, ?_⟩
      intro t ht htt
      exact (h.tidOwn r' reg' hr' tid htid).2 t (hsub t ht) htt
  · intro t ht reg' hr'
    dsimp only at ht hr' ⊢
    have htr : t.regId ≠ r := hnt t (hsub t ht)
    rw [alook_aset_ne _ _ _ _ (fun hh => htr hh.symm)] at hr'
    exact h.timerRef t (hsub t ht) reg' hr'
  · intro r' reg' hr' ho
    dsimp only at hr' ⊢
    by_cases hrr : r' = r
    · rw [hrr, alook_aset_self] at hr'
      injection hr' with hreg'
      rw [hrr, succCount_append, succCount_single, if_pos ⟨rfl, rfl⟩]
      have := h.onceCount r reg hr honce
      rw [hex0] at this
      simp only [if_false, Bool.false_eq_true] at this
      rw [this]
      rw [← hreg']
      simp
    · rw [alook_aset_ne _ _ _ _ (fun hh => hrr hh.symm)] at hr'
      rw [succCount_append, succCount_single,
        if_neg (by rintro ⟨he, _⟩; exact hrr he.symm), Nat.add_zero]
      exact h.onceCount r' reg' hr' ho
  · intro r' reg' hr' ho hex t ht
    dsimp only at hr' ht ⊢
    by_cases hrr : r' = r
    · rw [hrr]
      exact hnt t (hsub t ht)
    · rw [alook_aset_ne _ _ _ _ (fun hh => hrr hh.symm)] at hr'
      exact h.onceNoTimer r' reg' hr' ho hex t (hsub t ht)
  · intro r' reg' hr' ho hex
    dsimp only at hr' ⊢
    by_cases hrr : r' = r
    · rw [hrr, alook_aset_self] at hr'
      injection hr' with hreg'
      have hset' : reg'.setId = reg.setId := by
        rw [← hreg']
      rw [hset', hrr, alook_aset_self]
      intro hmem
      have : r ∈ ((alook reg.setId s.evs.setsHeap).getD []).erase r := by
        simpa [unlMembers] using hmem
      exact (hnodup.mem_erase_iff.1 this).1 rfl
    · rw [alook_aset_ne _ _ _ _ (fun hh => hrr hh.symm)] at hr'
      by_cases hsid : reg'.setId = reg.setId
      · rw [hsid, alook_aset_self]
        intro hmem
        have hmem2 : r' ∈ (alook reg.setId s.evs.setsHeap).getD [] := by
          have : r' ∈ ((alook reg.setId s.evs.setsHeap).getD []).erase r := by
            simpa [unlMembers] using hmem
          exact List.mem_of_mem_erase this
        exact h.onceRemoved r' reg' hr' ho hex (hsid ▸ hmem2)
      · rw [alook_aset_ne _ _ _ _ (fun hh => hsid hh.symm)]
        exact h.onceRemoved r' reg' hr' ho hex
  · intro sid l hl
    dsimp only at hl ⊢
    by_cases hsid : sid = reg.setId
    · rw [hsid, alook_aset_self] at hl
      injection hl with hl'
      constructor
      · rw [← hl']
        simpa [unlMembers] using hnodup.erase r
      · intro x hx
        rw [← hl'] at hx
        have hx2 : x ∈ (alook reg.setId s.evs.setsHeap).getD [] := by
          have : x ∈ ((alook reg.setId s.evs.setsHeap).getD []).erase r := by
            simpa [unlMembers] using hx
          exact List.mem_of_mem_erase this
        rcases hlk : alook reg.setId s.evs.setsHeap with _ | l0
        · rw [hlk] at hx2
          simp at hx2
        · rw [hlk] at hx2
          simp only [Option.getD_some] at hx2
          exact (h.setWF reg.setId l0 hlk).2 x hx2
    · rw [alook_aset_ne _ _ _ _ (fun hh => hsid hh.symm)] at hl
      exact h.setWF sid l hl
  · intro x hx r'' lid d okb hxe reg'' hr''
    dsimp only at hx hr'' ⊢
    by_cases hrr : r'' = r
    · rw [hrr, alook_aset_self] at hr''
      injection hr'' with hreg''
      rcases List.mem_append.1 hx with h1 | h2
      · have := h.evOk x h1 r'' lid d okb hxe reg (hrr ▸ hr)
        rw [← hreg'']
        exact this
      · rcases List.mem_singleton.1 h2 with rfl
        injection hxe with he1 he2 he3 he4
        subst he2
        subst he3
        subst he4
        rw [← hreg'']
        exact ⟨rfl, hok.symm⟩
    · rw [alook_aset_ne _ _ _ _ (fun hh => hrr hh.symm)] at hr''
      rcases List.mem_append.1 hx with h1 | h2
      · exact h.evOk x h1 r'' lid d okb hxe reg'' hr''
      · rcases List.mem_singleton.1 h2 with rfl
        injection hxe with he1 he2 he3 he4
        exact absurd he1.symm hrr

theorem inv_executeListener (s : BusState) (r : Nat) (td : Val)
    (hnt : ∀ t ∈ s.evs.evTimers, t.regId ≠ r)
    (hniex : ∀ reg, alook r s.evs.regsHeap = some reg → reg.opts.once = true →
      reg.hasExecuted = false)
    (h : BusInv s) : BusInv (EventBus.executeListener s r td) := by
  rcases hr : alook r s.evs.regsHeap with _ | reg
  · have hstep : EventBus.executeListener s r td = s := by
      simp [EventBus.executeListener, hr]
    rw [hstep]
    exact h
  · have hne' : ∀ r', alook r' s.evs.regsHeap = none → r ≠ r' := by
      intro r' hr' he
      rw [he, hr'] at hr
      exact Option.noConfusion hr
    by_cases hok : reg.ok td
    swap
    · replace hok : reg.ok td = false := by simpa using hok
      have hstep : EventBus.executeListener s r td =
          { s with trace := s.trace ++ [Ev.listenerCalled r reg.lid td false] } := by
        simp [EventBus.executeListener, hr, hok]
      rw [hstep]
      refine ⟨h.chFresh, ?_, ?_, h.regFresh, ?_, h.tidFresh, h.tidOwn, h.timerRef, ?_,
        h.onceNoTimer, h.onceRemoved, h.setWF, ?_⟩
      · intro j ch hch
        rw [onInitCount_append, onInitCount_listener_single, Nat.add_zero]
        exact h.chCount j ch hch
      · intro j hch
        rw [onInitCount_append, onInitCount_listener_single, Nat.add_zero]
        exact h.chNone j hch
      · intro r' hr'
        refine ⟨?_, (h.regNone r' hr').2⟩
        rw [callCount_append, callCount_single, if_neg (hne' r' hr'), Nat.add_zero]
        exact (h.regNone r' hr').1
      · intro r' reg' hr' ho
        rw [succCount_append, succCount_single]
        rw [if_neg (by rintro ⟨_, hfalse⟩; exact Bool.noConfusion hfalse), Nat.add_zero]
        exact h.onceCount r' reg' hr' ho
      · intro x hx r'' lid d okb hxe reg'' hr''
        rcases List.mem_append.1 hx with h1 | h2
        · exact h.evOk x h1 r'' lid d okb hxe reg'' hr''
        · rcases List.mem_singleton.1 h2 with rfl
          injection hxe with he1 he2 he3 he4
          subst he2
          subst he3
          subst he4
          rw [← he1, hr] at hr''
          injection hr'' with hreg''
          rw [← hreg'']
          exact ⟨rfl, hok.symm⟩
    · by_cases honce : reg.opts.once
      swap
      · have hstep : EventBus.executeListener s r td =
            { s with
              evs := { s.evs with
                regsHeap := aset r { reg with hasExecuted := true } s.evs.regsHeap },
              trace := s.trace ++ [Ev.listenerCalled r reg.lid td true] } := by
          simp [EventBus.executeListener, hr, hok, honce]
        rw [hstep]
        have hrlt : r < s.evs.nextRegId := alook_some_lt s r reg hr h
        refine ⟨h.chFresh, ?_, ?_, ?_, ?_, h.tidFresh, ?_, ?_, ?_, ?_, ?_, h.setWF, ?_⟩
        · intro j ch hch
          rw [onInitCount_append, onInitCount_listener_single, Nat.add_zero]
          exact h.chCount j ch hch
        · intro j hch
          rw [onInitCount_append, onInitCount_listener_single, Nat.add_zero]
          exact h.chNone j hch
        · intro r' hge
          dsimp only at hge ⊢
          rw [alook_aset_ne _ _ _ _ (by omega : r ≠ r')]
          exact h.regFresh r' hge
        · intro r' hr'
          dsimp only at hr' ⊢
          by_cases hrr : r' = r
          · rw [hrr, alook_aset_self] at hr'
            exact Option.noConfusion hr'
          · rw [alook_aset_ne _ _ _ _ (fun hh => hrr hh.symm)] at hr'
            refine ⟨?_, (h.regNone r' hr').2⟩
            rw [callCount_append, callCount_single, if_neg (hne' r' hr'), Nat.add_zero]
            exact (h.regNone r' hr').1
        · intro r' reg' hr' tid htid
          dsimp only at hr'
          by_cases hrr : r' = r
          · rw [hrr, alook_aset_self] at hr'
            injection hr' with hreg'
            rw [hrr]
            refine h.tidOwn r reg hr tid ?_
            rw [← hreg'] at htid
            exact htid
          · rw [alook_aset_ne _ _ _ _ (fun hh => hrr hh.symm)] at hr'
            exact h.tidOwn r' reg' hr' tid htid
        · intro t ht reg' hr'
          dsimp only at hr'
          have htr : t.regId ≠ r := hnt t ht
          rw [alook_aset_ne _ _ _ _ (fun hh => htr hh.symm)] at hr'
          exact h.timerRef t ht reg' hr'
        · intro r' reg' hr' ho
          dsimp only at hr'
          by_cases hrr : r' = r
          · rw [hrr, alook_aset_self] at hr'
            injection hr' with hreg'
            rw [← hreg'] at ho
            exact absurd ho (by simpa using honce)
          · rw [alook_aset_ne _ _ _ _ (fun hh => hrr hh.symm)] at hr'
            rw [succCount_append, succCount_single,
              if_neg (by rintro ⟨he, _⟩; exact hrr he.symm), Nat.add_zero]
            exact h.onceCount r' reg' hr' ho
        · intro r' reg' hr' ho hex
          dsimp only at hr'
          by_cases hrr : r' = r
          · rw [hrr, alook_aset_self] at hr'
            injection hr' with hreg'
            rw [← hreg'] at ho
            exact absurd ho (by simpa using honce)
          · rw [alook_aset_ne _ _ _ _ (fun hh => hrr hh.symm)] at hr'
            exact h.onceNoTimer r' reg' hr' ho hex
        · intro r' reg' hr' ho hex
          dsimp only at hr' ⊢
          by_cases hrr : r' = r
          · rw [hrr, alook_aset_self] at hr'
            injection hr' with hreg'
            rw [← hreg'] at ho
            exact absurd ho (by simpa using honce)
          · rw [alook_aset_ne _ _ _ _ (fun hh => hrr hh.symm)] at hr'
            exact h.onceRemoved r' reg' hr' ho hex
        · intro x hx r'' lid d okb hxe reg'' hr''
          dsimp only at hr''
          by_cases hrr : r'' = r
          · rw [hrr, alook_aset_self] at hr''
            injection hr'' with hreg''
            rcases List.mem_append.1 hx with h1 | h2
            · have := h.evOk x h1 r'' lid d okb hxe reg (hrr ▸ hr)
              rw [← hreg'']
              exact this
            · rcases List.mem_singleton.1 h2 with rfl
              injection hxe with he1 he2 he3 he4
              subst he2
              subst he3
              subst he4
              rw [← hreg'']
              exact ⟨rfl, hok.symm⟩
          · rw [alook_aset_ne _ _ _ _ (fun hh => hrr hh.symm)] at hr''
            rcases List.mem_append.1 hx with h1 | h2
            · exact h.evOk x h1 r'' lid d okb hxe reg'' hr''
            · rcases List.mem_singleton.1 h2 with rfl
              injection hxe with he1 he2 he3 he4
              exact absurd he1.symm hrr
      · exact inv_executeListener_once s r td reg hr hok honce hnt
          (hniex reg hr honce) hne' h

/-- Updating a registration without touching its semantically relevant
fields (identity, options, execution flag, timer reference, set
reference) preserves the invariant. -/
theorem inv_reg_touch (s : BusState) (r : Nat) (reg reg' : Reg)
    (hr : alook r s.evs.regsHeap = some reg)
    (hlid : reg'.lid = reg.lid) (hokf : reg'.ok = reg.ok) (hopts : reg'.opts = reg.opts)
    (hexe : reg'.hasExecuted = reg.hasExecuted) (hdt : reg'.debounceTimer = reg.debounceTimer)
    (hsid : reg'.setId = reg.setId)
    (h : BusInv s) :
    BusInv { s with evs := { s.evs with regsHeap := aset r reg' s.evs.regsHeap } } := by
  have hrlt : r < s.evs.nextRegId := alook_some_lt s r reg hr h
  refine ⟨h.chFresh, h.chCount, h.chNone, ?_, ?_, h.tidFresh, ?_, ?_, ?_, ?_, ?_, h.setWF, ?_⟩
  · intro r' hge
    dsimp only at hge ⊢
    rw [alook_aset_ne _ _ _ _ (by omega : r ≠ r')]
    exact h.regFresh r' hge
  · intro r' hr'
    dsimp only at hr' ⊢
    by_cases hrr : r' = r
    · rw [hrr, alook_aset_self] at hr'
      exact Option.noConfusion hr'
    · rw [alook_aset_ne _ _ _ _ (fun hh => hrr hh.symm)] at hr'
      exact h.regNone r' hr'
  · intro r' rg hr' tid htid
    dsimp only at hr' ⊢
    by_cases hrr : r' = r
    · rw [hrr, alook_aset_self] at hr'
      injection hr' with hrg
      rw [← hrg, hdt] at htid
      rw [hrr]
      exact h.tidOwn r reg hr tid htid
    · rw [alook_aset_ne _ _ _ _ (fun hh => hrr hh.symm)] at hr'
      exact h.tidOwn r' rg hr' tid htid
  · intro t ht rg hr'
    dsimp only at ht hr' ⊢
    by_cases hrr : t.regId = r
    · rw [hrr, alook_aset_self] at hr'
      injection hr' with hrg
      have := h.timerRef t ht reg (hrr ▸ hr)
      rw [← hrg, hdt, hopts]
      exact this
    · rw [alook_aset_ne _ _ _ _ (fun hh => hrr hh.symm)] at hr'
      exact h.timerRef t ht rg hr'
  · intro r' rg hr' ho
    dsimp only at hr' ⊢
    by_cases hrr : r' = r
    · rw [hrr, alook_aset_self] at hr'
      injection hr' with hrg
      rw [← hrg, hopts] at ho
      rw [← hrg, hexe, hrr]
      exact h.onceCount r reg hr ho
    · rw [alook_aset_ne _ _ _ _ (fun hh => hrr hh.symm)] at hr'
      exact h.onceCount r' rg hr' ho
  · intro r' rg hr' ho hex
    dsimp only at hr' ⊢
    by_cases hrr : r' = r
    · rw [hrr, alook_aset_self] at hr'
      injection hr' with hrg
      rw [← hrg, hopts] at ho
      rw [← hrg, hexe] at hex
      rw [hrr]
      exact h.onceNoTimer r reg hr ho hex
    · rw [alook_aset_ne _ _ _ _ (fun hh => hrr hh.symm)] at hr'
      exact h.onceNoTimer r' rg hr' ho hex
  · intro r' rg hr' ho hex
    dsimp only at hr' ⊢
    by_cases hrr : r' = r
    · rw [hrr, alook_aset_self] at hr'
      injection hr' with hrg
      rw [← hrg, hopts] at ho
      rw [← hrg, hexe] at hex
      rw [← hrg, hsid, hrr]
      exact h.onceRemoved r reg hr ho hex
    · rw [alook_aset_ne _ _ _ _ (fun hh => hrr hh.symm)] at hr'
      exact h.onceRemoved r' rg hr' ho hex
  · intro x hx r'' lid d okb hxe rg hr''
    dsimp only at hr''
    by_cases hrr : r'' = r
    · rw [hrr, alook_aset_self] at hr''
      injection hr'' with hrg
      have := h.evOk x hx r'' lid d okb hxe reg (hrr ▸ hr)
      rw [← hrg, hlid, hokf]
      exact this
    · rw [alook_aset_ne _ _ _ _ (fun hh => hrr hh.symm)] at hr''
      exact h.evOk x hx r'' lid d okb hxe rg hr''

/-- Dropping pending timers preserves the invariant (all timer clauses
are subset-stable). -/
theorem inv_timers_filter (s : BusState) (p : EvTimer → Bool) (h : BusInv s) :
    BusInv { s with evs := { s.evs with evTimers := s.evs.evTimers.filter p } } := by
  have hsub : ∀ t, t ∈ s.evs.evTimers.filter p → t ∈ s.evs.evTimers :=
    fun t ht => (List.mem_filter.1 ht).1
  refine ⟨h.chFresh, h.chCount, h.chNone, h.regFresh, ?_, ?_, ?_, ?_, h.onceCount, ?_,
    h.onceRemoved, h.setWF, h.evOk⟩
  · intro r' hr'
    exact ⟨(h.regNone r' hr').1, fun t ht => (h.regNone r' hr').2 t (hsub t ht)⟩
  · intro t ht
    exact h.tidFresh t (hsub t ht)
  · intro r' rg hr' tid htid
    exact ⟨(h.tidOwn r' rg hr' tid htid).1,
      fun t ht htt => (h.tidOwn r' rg hr' tid htid).2 t (hsub t ht) htt⟩
  · intro t ht rg hr'
    exact h.timerRef t (hsub t ht) rg hr'
  · intro r' rg hr' ho hex t ht
    exact h.onceNoTimer r' rg hr' ho hex t (hsub t ht)

/-- The debounce branch of the wrapped listener: cancelling the previous
timer (leaving `T0`, which contains no timer of this registration) and
scheduling a fresh one preserves the invariant. -/
theorem inv_wrapped_debounce (s : BusState) (r : Nat) (reg : Reg) (td : Val) (now : Nat)
    (hr : alook r s.evs.regsHeap = some reg)
    (hdb : reg.opts.debounce ≠ 0)
    (hguard : ¬(reg.opts.once = true ∧ reg.hasExecuted = true))
    (t0 : List EvTimer)
    (hsub : ∀ t ∈ t0, t ∈ s.evs.evTimers)
    (ht0r : ∀ t ∈ t0, t.regId ≠ r)
    (h : BusInv s) :
    BusInv { s with evs := { s.evs with
        evTimers := t0 ++
          [{ tid := s.evs.nextTid, regId := r, fireAt := now + reg.opts.debounce, data := td }],
        nextTid := s.evs.nextTid + 1,
        regsHeap := aset r { reg with debounceTimer := some s.evs.nextTid } s.evs.regsHeap } } := by
  have hrlt : r < s.evs.nextRegId := alook_some_lt s r reg hr h
  have hne' : ∀ r', alook r' s.evs.regsHeap = none → r ≠ r' := by
    intro r' hr' he
    rw [he, hr'] at hr
    exact Option.noConfusion hr
  refine ⟨h.chFresh, h.chCount, h.chNone, ?_, ?_, ?_, ?_, ?_, ?_, ?_, ?_, h.setWF, ?_⟩
  · intro r' hge
    dsimp only at hge ⊢
    rw [alook_aset_ne _ _ _ _ (by omega : r ≠ r')]
    exact h.regFresh r' hge
  · intro r' hr'
    dsimp only at hr' ⊢
    by_cases hrr : r' = r
    · rw [hrr, alook_aset_self] at hr'
      exact Option.noConfusion hr'
    · rw [alook_aset_ne _ _ _ _ (fun hh => hrr hh.symm)] at hr'
      refine ⟨(h.regNone r' hr').1, ?_⟩
      intro t ht
      rcases List.mem_append.1 ht with h1 | h2
      · exact (h.regNone r' hr').2 t (hsub t h1)
      · rcases List.mem_singleton.1 h2 with rfl
        dsimp only
        intro he
        exact hrr he.symm
  · intro t ht
    dsimp only at ht ⊢
    rcases List.mem_append.1 ht with h1 | h2
    · have := h.tidFresh t (hsub t h1)
      omega
    · rcases List.mem_singleton.1 h2 with rfl
      dsimp only
      omega
  · intro r' rg hr' tid htid
    dsimp only at hr' ⊢
    by_cases hrr : r' = r
    · rw [hrr, alook_aset_self] at hr'
      injection hr' with hrg
      have htid' : tid = s.evs.nextTid := by
        rw [← hrg] at htid
        injection htid with hh
        exact hh.symm
      constructor
      · omega
      · intro t ht htt
        rcases List.mem_append.1 ht with h1 | h2
        · have := h.tidFresh t (hsub t h1)
          omega
        · rcases List.mem_singleton.1 h2 with rfl
          rw [hrr]
    · rw [alook_aset_ne _ _ _ _ (fun hh => hrr hh.symm)] at hr'
      have hpre := h.tidOwn r' rg hr' tid htid
      constructor
      · omega
      · intro t ht htt
        rcases List.mem_append.1 ht with h1 | h2
        · exact hpre.2 t (hsub t h1) htt
        · rcases List.mem_singleton.1 h2 with rfl
          dsimp only at htt
          omega
  · intro t ht rg hr'
    dsimp only at ht hr' ⊢
    rcases List.mem_append.1 ht with h1 | h2
    · have htr : t.regId ≠ r := ht0r t h1
      rw [alook_aset_ne _ _ _ _ (fun hh => htr hh.symm)] at hr'
      exact h.timerRef t (hsub t h1) rg hr'
    · rcases List.mem_singleton.1 h2 with rfl
      dsimp only at hr' ⊢
      rw [alook_aset_self] at hr'
      injection hr' with hrg
      rw [← hrg]
      exact ⟨rfl, hdb⟩
  · intro r' rg hr' ho
    dsimp only at hr' ⊢
    by_cases hrr : r' = r
    · rw [hrr, alook_aset_self] at hr'
      injection hr' with hrg
      rw [← hrg] at ho ⊢
      rw [hrr]
      exact h.onceCount r reg hr ho
    · rw [alook_aset_ne _ _ _ _ (fun hh => hrr hh.symm)] at hr'
      exact h.onceCount r' rg hr' ho
  · intro r' rg hr' ho hex t ht
    dsimp only at hr' ht ⊢
    by_cases hrr : r' = r
    · rw [hrr, alook_aset_self] at hr'
      injection hr' with hrg
      rw [← hrg] at ho hex
      exact absurd ⟨ho, hex⟩ hguard
    · rw [alook_aset_ne _ _ _ _ (fun hh => hrr hh.symm)] at hr'
      rcases List.mem_append.1 ht with h1 | h2
      · exact h.onceNoTimer r' rg hr' ho hex t (hsub t h1)
      · rcases List.mem_singleton.1 h2 with rfl
        dsimp only
        intro he
        exact hrr he.symm
  · intro r' rg hr' ho hex
    dsimp only at hr' ⊢
    by_cases hrr : r' = r
    · rw [hrr, alook_aset_self] at hr'
      injection hr' with hrg
      rw [← hrg] at ho hex
      exact absurd ⟨ho, hex⟩ hguard
    · rw [alook_aset_ne _ _ _ _ (fun hh => hrr hh.symm)] at hr'
      exact h.onceRemoved r' rg hr' ho hex
  · intro x hx r'' lid d okb hxe rg hr''
    dsimp only at hr''
    by_cases hrr : r'' = r
    · rw [hrr, alook_aset_self] at hr''
      injection hr'' with hrg
      have := h.evOk x hx r'' lid d okb hxe reg (hrr ▸ hr)
      rw [← hrg]
      exact this
    · rw [alook_aset_ne _ _ _ _ (fun hh => hrr hh.symm)] at hr''
      exact h.evOk x hx r'' lid d okb hxe rg hr''

theorem inv_wrappedCall (s : BusState) (r : Nat) (d : Val) (now : Nat) (h : BusInv s) :
    BusInv (EventBus.wrappedCall s r d now) := by
  rcases hr : alook r s.evs.regsHeap with _ | reg
  · have hstep : EventBus.wrappedCall s r d now = s := by simp [EventBus.wrappedCall, hr]
    rw [hstep]
    exact h
  · by_cases hguard : reg.opts.once && reg.hasExecuted
    · have hstep : EventBus.wrappedCall s r d now = s := by
        simp [EventBus.wrappedCall, hr, hguard]
      rw [hstep]
      exact h
    · have hguard' : ¬(reg.opts.once = true ∧ reg.hasExecuted = true) := by
        intro ⟨h1, h2⟩
        exact hguard (by rw [h1, h2]; rfl)
      have hniexe : ∀ rg, alook r s.evs.regsHeap = some rg → rg.opts.once = true →
          rg.hasExecuted = false := by
        intro rg hrg ho
        rw [hr] at hrg
        injection hrg with hh
        rw [← hh] at ho ⊢
        cases hhe : reg.hasExecuted
        · rfl
        · exact absurd ⟨ho, hhe⟩ hguard'
      by_cases hval : (match reg.opts.validate with | some f => !(f d) | none => false)
      · have hstep : EventBus.wrappedCall s r d now = s := by
          simp only [EventBus.wrappedCall, hr]
          rw [if_neg (by simpa using hguard), if_pos hval]
        rw [hstep]
        exact h
      · by_cases hdb0 : reg.opts.debounce = 0
        · have hnt : ∀ t ∈ s.evs.evTimers, t.regId ≠ r := by
            intro t ht he
            exact (h.timerRef t ht reg (he ▸ hr)).2 hdb0
          by_cases hth0 : reg.opts.throttle = 0
          · have hstep : EventBus.wrappedCall s r d now =
                EventBus.executeListener s r
                  (match reg.opts.transform with | some g => g d | none => d) := by
              simp [EventBus.wrappedCall, hr, hguard, hval, hdb0, hth0]
            rw [hstep]
            exact inv_executeListener s r _ hnt hniexe h
          · by_cases hfire : reg.opts.throttle ≤ now - reg.lastCallTime
            · have hstep : EventBus.wrappedCall s r d now =
                  EventBus.executeListener
                    { s with evs := { s.evs with
                        regsHeap := aset r { reg with lastCallTime := now } s.evs.regsHeap } }
                    r (match reg.opts.transform with | some g => g d | none => d) := by
                simp [EventBus.wrappedCall, hr, hguard, hval, hdb0, hth0, hfire]
              rw [hstep]
              have h' : BusInv { s with evs := { s.evs with
                  regsHeap := aset r { reg with lastCallTime := now } s.evs.regsHeap } } :=
                inv_reg_touch s r reg { reg with lastCallTime := now } hr rfl rfl rfl rfl rfl rfl h
              refine inv_executeListener _ r _ hnt ?_ h'
              intro rg hrg ho
              dsimp only at hrg
              rw [alook_aset_self] at hrg
              injection hrg with hh
              rw [← hh] at ho ⊢
              cases hhe : reg.hasExecuted
              · rfl
              · exact absurd ⟨ho, hhe⟩ hguard'
            · have hstep : EventBus.wrappedCall s r d now = s := by
                simp [EventBus.wrappedCall, hr, hguard, hval, hdb0, hth0, hfire]
              rw [hstep]
              exact h
        · rcases hdt : reg.debounceTimer with _ | tid0
          · have hstep : EventBus.wrappedCall s r d now =
                { s with evs := { s.evs with
                    evTimers := s.evs.evTimers ++
                      [{ tid := s.evs.nextTid, regId := r, fireAt := now + reg.opts.debounce,
                         data := (match reg.opts.transform with | some g => g d | none => d) }],
                    nextTid := s.evs.nextTid + 1,
                    regsHeap := aset r { reg with debounceTimer := some s.evs.nextTid }
                      s.evs.regsHeap } } := by
              simp [EventBus.wrappedCall, hr, hguard, hval, hdb0, hdt]
            rw [hstep]
            refine inv_wrapped_debounce s r reg _ now hr hdb0 hguard' s.evs.evTimers
              (fun t ht => ht) ?_ h
            intro t ht he
            have := (h.timerRef t ht reg (he ▸ hr)).1
            rw [hdt] at this
            exact Option.noConfusion this
          · have hstep : EventBus.wrappedCall s r d now =
                { s with evs := { s.evs with
                    evTimers := (s.evs.evTimers.filter (fun t => t.tid ≠ tid0)) ++
                      [{ tid := s.evs.nextTid, regId := r, fireAt := now + reg.opts.debounce,
                         data := (match reg.opts.transform with | some g => g d | none => d) }],
                    nextTid := s.evs.nextTid + 1,
                    regsHeap := aset r { reg with debounceTimer := some s.evs.nextTid }
                      s.evs.regsHeap } } := by
              simp [EventBus.wrappedCall, hr, hguard, hval, hdb0, hdt]
            rw [hstep]
            refine inv_wrapped_debounce s r reg _ now hr hdb0 hguard'
              (s.evs.evTimers.filter (fun t => t.tid ≠ tid0))
              (fun t ht => (List.mem_filter.1 ht).1) ?_ h
            intro t ht he
            have h1 := (h.timerRef t (List.mem_filter.1 ht).1 reg (he ▸ hr)).1
            rw [hdt] at h1
            injection h1 with h1'
            have h2 := (List.mem_filter.1 ht).2
            rw [← h1'] at h2
            simp at h2

theorem inv_emit (s : BusState) (n : String) (d : Val) (now : Nat) (h : BusInv s) :
    BusInv (EventBus.emit s n d now) := by
  rcases hreg : alook n s.evs.evRegistry with _ | sid
  · have hstep : EventBus.emit s n d now = s := by simp [EventBus.emit, hreg]
    rw [hstep]
    exact h
  · have hstep : EventBus.emit s n d now =
        ((alook sid s.evs.setsHeap).getD []).foldl
          (fun s' r =>
            if r ∈ (alook sid s'.evs.setsHeap).getD [] then EventBus.wrappedCall s' r d now
            else s') s := by
      simp [EventBus.emit, hreg]
    rw [hstep]
    refine foldl_preserve BusInv _ ?_ _ s h
    intro s' a hs'
    split
    · exact inv_wrappedCall s' a d now hs'
    · exact hs'

theorem inv_newSet (s : BusState) (n : String) (h : BusInv s) :
    BusInv { s with evs := { s.evs with
        setsHeap := aset s.evs.nextSetId [] s.evs.setsHeap,
        evRegistry := aset n s.evs.nextSetId s.evs.evRegistry,
        nextSetId := s.evs.nextSetId + 1 } } := by
  refine ⟨h.chFresh, h.chCount, h.chNone, h.regFresh, h.regNone, h.tidFresh, h.tidOwn,
    h.timerRef, h.onceCount, h.onceNoTimer, ?_, ?_, h.evOk⟩
  · intro r' reg' hr' ho hex
    dsimp only
    by_cases hsid : reg'.setId = s.evs.nextSetId
    · rw [hsid, alook_aset_self]
      simp
    · rw [alook_aset_ne _ _ _ _ (fun hh => hsid hh.symm)]
      exact h.onceRemoved r' reg' hr' ho hex
  · intro sid l hl
    dsimp only at hl ⊢
    by_cases hsid : sid = s.evs.nextSetId
    · rw [hsid, alook_aset_self] at hl
      injection hl with hl'
      rw [← hl']
      exact ⟨List.nodup_nil, fun x hx => absurd hx (List.not_mem_nil x)⟩
    · rw [alook_aset_ne _ _ _ _ (fun hh => hsid hh.symm)] at hl
      exact h.setWF sid l hl

theorem inv_onAdd (s : BusState) (n : String) (lid : Nat) (okf : Val → Bool)
    (opts : ListenOpts) (sid : Nat)
    (hsid : alook n s.evs.evRegistry = some sid)
    (h : BusInv s) :
    BusInv { s with evs := { s.evs with
        regsHeap := aset s.evs.nextRegId
          { lid := lid, ok := okf, opts := opts, eventName := n, setId := sid,
            hasExecuted := false, lastCallTime := 0, debounceTimer := none } s.evs.regsHeap,
        nextRegId := s.evs.nextRegId + 1,
        setsHeap := aset sid (((alook sid s.evs.setsHeap).getD []) ++ [s.evs.nextRegId])
          s.evs.setsHeap } } := by
  have hfreshNone : alook s.evs.nextRegId s.evs.regsHeap = none :=
    h.regFresh s.evs.nextRegId (le_refl _)
  have hcall0 : callCount s.evs.nextRegId s.trace = 0 := (h.regNone _ hfreshNone).1
  have hmemOld : ∀ x ∈ (alook sid s.evs.setsHeap).getD [], x < s.evs.nextRegId := by
    intro x hx
    rcases hlk : alook sid s.evs.setsHeap with _ | l0
    · rw [hlk] at hx
      simp at hx
    · rw [hlk] at hx
      simp only [Option.getD_some] at hx
      exact (h.setWF sid l0 hlk).2 x hx
  have hnodupOld : ((alook sid s.evs.setsHeap).getD []).Nodup := by
    rcases hlk : alook sid s.evs.setsHeap with _ | l0
    · simp
    · simpa using (h.setWF sid l0 hlk).1
  refine ⟨h.chFresh, h.chCount, h.chNone, ?_, ?_, h.tidFresh, ?_, ?_, ?_, ?_, ?_, ?_, ?_⟩
  · intro r' hge
    dsimp only at hge ⊢
    rw [alook_aset_ne _ _ _ _ (by omega : s.evs.nextRegId ≠ r')]
    exact h.regFresh r' (by omega)
  · intro r' hr'
    dsimp only at hr' ⊢
    by_cases hrr : r' = s.evs.nextRegId
    · rw [hrr, alook_aset_self] at hr'
      exact Option.noConfusion hr'
    · rw [alook_aset_ne _ _ _ _ (fun hh => hrr hh.symm)] at hr'
      exact h.regNone r' hr'
  · intro r' rg hr' tid htid
    dsimp only at hr' ⊢
    by_cases hrr : r' = s.evs.nextRegId
    · rw [hrr, alook_aset_self] at hr'
      injection hr' with hrg
      rw [← hrg] at htid
      exact Option.noConfusion htid
    · rw [alook_aset_ne _ _ _ _ (fun hh => hrr hh.symm)] at hr'
      exact h.tidOwn r' rg hr' tid htid
  · intro t ht rg hr'
    dsimp only at ht hr' ⊢
    have htne : t.regId ≠ s.evs.nextRegId := (h.regNone _ hfreshNone).2 t ht
    rw [alook_aset_ne _ _ _ _ (fun hh => htne hh.symm)] at hr'
    exact h.timerRef t ht rg hr'
  · intro r' rg hr' ho
    dsimp only at hr' ⊢
    by_cases hrr : r' = s.evs.nextRegId
    · rw [hrr, alook_aset_self] at hr'
      injection hr' with hrg
      rw [← hrg]
      dsimp only
      rw [hrr]
      rw [if_neg (by simp)]
      exact succCount_zero_of_callCount_zero _ _ hcall0
    · rw [alook_aset_ne _ _ _ _ (fun hh => hrr hh.symm)] at hr'
      exact h.onceCount r' rg hr' ho
  · intro r' rg hr' ho hex
    dsimp only at hr' ⊢
    by_cases hrr : r' = s.evs.nextRegId
    · rw [hrr, alook_aset_self] at hr'
      injection hr' with hrg
      rw [← hrg] at hex
      exact absurd hex (by simp)
    · rw [alook_aset_ne _ _ _ _ (fun hh => hrr hh.symm)] at hr'
      exact h.onceNoTimer r' rg hr' ho hex
  · intro r' rg hr' ho hex
    dsimp only at hr' ⊢
    by_cases hrr : r' = s.evs.nextRegId
    · rw [hrr, alook_aset_self] at hr'
      injection hr' with hrg
      rw [← hrg] at hex
      exact absurd hex (by simp)
    · rw [alook_aset_ne _ _ _ _ (fun hh => hrr hh.symm)] at hr'
      have hlt : r' < s.evs.nextRegId := alook_some_lt s r' rg hr' h
      by_cases hss : rg.setId = sid
      · rw [hss, alook_aset_self]
        intro hmem
        rcases List.mem_append.1 hmem with h1 | h2
        · exact h.onceRemoved r' rg hr' ho hex (hss ▸ h1)
        · rcases List.mem_singleton.1 h2 with rfl
          omega
      · rw [alook_aset_ne _ _ _ _ (fun hh => hss hh.symm)]
        exact h.onceRemoved r' rg hr' ho hex
  · intro sid' l hl
    dsimp only at hl ⊢
    by_cases hss : sid' = sid
    · rw [hss, alook_aset_self] at hl
      injection hl with hl'
      constructor
      · rw [← hl']
        rw [List.nodup_append]
        refine ⟨hnodupOld, List.nodup_singleton _, ?_⟩
        intro x hx hx2
        have hxlt := hmemOld x hx
        have hxeq : x = s.evs.nextRegId := List.mem_singleton.1 hx2
        omega
      · intro x hx
        rw [← hl'] at hx
        rcases List.mem_append.1 hx with h1 | h2
        · have := hmemOld x h1
          omega
        · rcases List.mem_singleton.1 h2 with rfl
          omega
    · rw [alook_aset_ne _ _ _ _ (fun hh => hss hh.symm)] at hl
      have := h.setWF sid' l hl
      exact ⟨this.1, fun x hx => by have := this.2 x hx; omega⟩
  · intro x hx r'' lid' d okb hxe rg hr''
    dsimp only at hr''
    by_cases hrr : r'' = s.evs.nextRegId
    · exfalso
      rw [hrr] at hxe
      exact no_call_event_of_callCount_zero _ _ hcall0 x hx lid' d okb hxe
    · rw [alook_aset_ne _ _ _ _ (fun hh => hrr hh.symm)] at hr''
      exact h.evOk x hx r'' lid' d okb hxe rg hr''

theorem inv_on (s : BusState) (n : String) (lid : Nat) (okf : Val → Bool) (opts : ListenOpts)
    (h : BusInv s) : BusInv (EventBus.on s n lid okf opts) := by
  rcases hreg : alook n s.evs.evRegistry with _ | sid0
  · have h1 := inv_newSet s n h
    have hsid1 : alook n
        ({ s with evs := { s.evs with
            setsHeap := aset s.evs.nextSetId [] s.evs.setsHeap,
            evRegistry := aset n s.evs.nextSetId s.evs.evRegistry,
            nextSetId := s.evs.nextSetId + 1 } } : BusState).evs.evRegistry =
        some s.evs.nextSetId := alook_aset_self _ _ _
    have h2 := inv_onAdd _ n lid okf opts s.evs.nextSetId hsid1 h1
    have hstep : EventBus.on s n lid okf opts =
        { { s with evs := { s.evs with
              setsHeap := aset s.evs.nextSetId [] s.evs.setsHeap,
              evRegistry := aset n s.evs.nextSetId s.evs.evRegistry,
              nextSetId := s.evs.nextSetId + 1 } } with
          evs := { ({ s with evs := { s.evs with
              setsHeap := aset s.evs.nextSetId [] s.evs.setsHeap,
              evRegistry := aset n s.evs.nextSetId s.evs.evRegistry,
              nextSetId := s.evs.nextSetId + 1 } } : BusState).evs with
            regsHeap := aset s.evs.nextRegId
              { lid := lid, ok := okf, opts := opts, eventName := n,
                setId := s.evs.nextSetId, hasExecuted := false, lastCallTime := 0,
                debounceTimer := none } s.evs.regsHeap,
            nextRegId := s.evs.nextRegId + 1,
            setsHeap := aset s.evs.nextSetId
              (((alook s.evs.nextSetId (aset s.evs.nextSetId ([] : List Nat) s.evs.setsHeap)).getD []) ++
                [s.evs.nextRegId])
              (aset s.evs.nextSetId ([] : List Nat) s.evs.setsHeap) } } := by
      simp [EventBus.on, hreg, alook_aset_self]
    rw [hstep]
    exact h2
  · have h2 := inv_onAdd s n lid okf opts sid0 hreg h
    have hstep : EventBus.on s n lid okf opts =
        { s with evs := { s.evs with
            regsHeap := aset s.evs.nextRegId
              { lid := lid, ok := okf, opts := opts, eventName := n, setId := sid0,
                hasExecuted := false, lastCallTime := 0, debounceTimer := none } s.evs.regsHeap,
            nextRegId := s.evs.nextRegId + 1,
            setsHeap := aset sid0 (((alook sid0 s.evs.setsHeap).getD []) ++ [s.evs.nextRegId])
              s.evs.setsHeap } } := by
      simp [EventBus.on, hreg]
    rw [hstep]
    exact h2

theorem inv_onceReg (s : BusState) (n : String) (lid : Nat) (okf : Val → Bool) (h : BusInv s) :
    BusInv (EventBus.onceReg s n lid okf) :=
  inv_on s n lid okf { once := true } h

theorem inv_fireEvTimer (s : BusState) (tid now : Nat) (h : BusInv s) :
    BusInv (EventBus.fireEvTimer s tid now) := by
  rcases hfind : s.evs.evTimers.find? (fun t => t.tid == tid) with _ | t
  · have hstep : EventBus.fireEvTimer s tid now = s := by simp [EventBus.fireEvTimer, hfind]
    rw [hstep]
    exact h
  · have hmem : t ∈ s.evs.evTimers := List.mem_of_find?_eq_some hfind
    have htid : t.tid = tid := by
      have := List.find?_some hfind
      simpa using this
    by_cases hle : t.fireAt ≤ now
    · have hstep : EventBus.fireEvTimer s tid now =
          EventBus.executeListener
            { s with evs := { s.evs with
                evTimers := s.evs.evTimers.filter (fun u => u.tid ≠ tid) } } t.regId t.data := by
        simp [EventBus.fireEvTimer, hfind, hle]
      rw [hstep]
      have h' := inv_timers_filter s (fun u => decide (u.tid ≠ tid)) h
      refine inv_executeListener _ t.regId t.data ?_ ?_ h'
      · intro u hu he
        dsimp only at hu
        have hu1 := (List.mem_filter.1 hu).1
        have hu2 := (List.mem_filter.1 hu).2
        rcases hrg : alook t.regId s.evs.regsHeap with _ | rg
        · exact absurd rfl ((h.regNone _ hrg).2 t hmem)
        · have hdt1 := (h.timerRef t hmem rg hrg).1
          have hdt2 := (h.timerRef u hu1 rg (he ▸ hrg)).1
          rw [hdt1] at hdt2
          injection hdt2 with hdt3
          rw [← hdt3, htid] at hu2
          simp at hu2
      · intro rg hrg ho
        dsimp only at hrg
        cases hhe : rg.hasExecuted
        · rfl
        · exact absurd rfl (h.onceNoTimer t.regId rg hrg ho hhe t hmem)
    · have hstep : EventBus.fireEvTimer s tid now = s := by
        simp [EventBus.fireEvTimer, hfind, hle]
      rw [hstep]
      exact h

theorem inv_step (s : BusState) (op : Op) (h : BusInv s) : BusInv (step s op) := by
  cases op with
  | chOp n cfg now => exact inv_channelGet s n cfg now h
  | pub n v now => exact inv_publish s n v now h
  | sub n subId now => exact inv_subscribe s n subId now h
  | unsub chId n subId => exact inv_unsubCb s chId n subId h
  | clearOp n => exact inv_clear s n h
  | clearAllOp f => exact inv_clearAllB s f h
  | ttlFire n now => exact inv_fireTTL s n now h
  | chDebFire n now => exact inv_fireChDeb s n now h
  | emitOp n d now => exact inv_emit s n d now h
  | onOp n lid okf opts => exact inv_on s n lid okf opts h
  | onceOp n lid okf => exact inv_onceReg s n lid okf h
  | unlistenOp r => exact inv_unlisten s r h
  | offOp n => exact inv_off s n h
  | evTimerFire tid now => exact inv_fireEvTimer s tid now h

theorem inv_runFrom (s : BusState) (ops : List Op) (h : BusInv s) : BusInv (runFrom s ops) :=
  foldl_preserve BusInv step inv_step ops s h

theorem inv_run (ops : List Op) : BusInv (run ops) :=
  inv_runFrom emptyBus ops inv_emptyBus

def c3Chan : Channel :=
  { id := 0, value := Val.undef, storage := StorageMode.memory, storageKey := "lithium:c3",
    subscribers := [], ttl := 0, autoCleanup := false, createdAt := 0,
    config := some { onInit := true }, isInitialized := false,
    ttlTimer := none, debTimer := none, onChangeLastCall := 0 }

def c3State : BusState :=
  { chs := { chHeap := [(0, c3Chan)], registry := [("c3", 0)], nextChId := 1,
             sessionStore := [], localStore := [] },
    evs := emptyBus.evs, trace := [] }

/-- C3.  `onInit` fires exactly once per channel incarnation: (a) over any
run from the pristine bus, at most one `onInit` event per incarnation is
ever traced; (b) channel creation appends exactly one `onInit` event when
the resolved initial value (stored value, else `initialValue`) is
non-absent and the hook is configured, and none otherwise; (c) a
validate-passing publish appends exactly one `onInit` event when the
channel is not yet initialized, the post-transform value is non-absent and
the hook is configured, and none otherwise, and (d) when it fires the
channel is marked initialized, so (e) no publish on an initialized channel
ever adds an `onInit` event for it again. -/
theorem onInit_fires_exactly_once (ops : List Op) (s : BusState) (n : String) (v : Val)
    (cfg : Option Config) (now id : Nat) (ch : Channel)
    (hreg : alook n s.chs.registry = some id)
    (hch : alook id s.chs.chHeap = some ch)
    (hval : chValidateOk ch v = true) :
    (∀ j, onInitCount j (run ops).trace ≤ 1)
    ∧ ((EventBus.channelCreate s n cfg now).trace =
        s.trace ++ (if !(chResolved s n cfg).isAbsent && ((cfg.map (fun c => c.onInit)).getD false)
                    then [Ev.onInitFired s.chs.nextChId (chResolved s n cfg)] else []))
    ∧ (onInitCount id (EventBus.publish s n v now).trace =
        onInitCount id s.trace +
          (if !ch.isInitialized && (!(chTransform ch v).isAbsent && ch.hasOnInitHook)
           then 1 else 0))
    ∧ ((!ch.isInitialized && !(chTransform ch v).isAbsent) = true →
        ∃ ch', alook id (EventBus.publish s n v now).chs.chHeap = some ch'
          ∧ ch'.isInitialized = true)
    ∧ (∀ w, ch.isInitialized = true →
        onInitCount id (EventBus.publish s n w now).trace = onInitCount id s.trace) := by
  refine ⟨?_, ?_, ?_, ?_, ?_⟩
  · intro j
    have hI := inv_run ops
    rcases hlk : alook j (run ops).chs.chHeap with _ | ch'
    · rw [hI.chNone j hlk]
      omega
    · rw [hI.chCount j ch' hlk]
      split <;> omega
  · rw [channelCreate_eq]
    rfl
  · rw [publish_eq_core s n v now id ch hreg hch hval, publishCore_eq]
    dsimp only
    rw [onInitCount_append, pubEvsOf_count_self]
    have hcond : (pubFireInit ch v && ch.hasOnInitHook) =
        (!ch.isInitialized && (!(chTransform ch v).isAbsent && ch.hasOnInitHook)) := by
      rw [pubFireInit, Bool.and_assoc]
    rw [hcond]
  · intro hfi
    refine ⟨pubChanFinal id ch v now, ?_, ?_⟩
    · rw [publish_eq_core s n v now id ch hreg hch hval, publishCore_eq]
      dsimp only
      exact alook_aset_self _ _ _
    · rw [pubChanFinal_isInitialized]
      simp [pubFireInit, hfi]
  · intro w hinit
    by_cases hv : chValidateOk ch w = true
    · rw [publish_eq_core s n w now id ch hreg hch hv, publishCore_eq]
      dsimp only
      rw [onInitCount_append, pubEvsOf_count_self]
      have hfi : pubFireInit ch w = false := by simp [pubFireInit, hinit]
      rw [hfi]
      simp
    · rcases hvf : ch.validateF with _ | f
      · exact absurd (by simp [chValidateOk, hvf]) hv
      · have hf : f w = false := by
          rcases hb : f w
          · rfl
          · exact absurd (by simp [chValidateOk, hvf, hb]) hv
        have hstep : EventBus.publish s n w now =
            { s with trace := s.trace ++ [Ev.warnValidation id n w] } := by
          simp [EventBus.publish, hreg, hch, hvf, hf]
        rw [hstep]
        dsimp only
        rw [onInitCount_append, onInitCount_warn, Nat.add_zero]

theorem onInit_fires_exactly_once_witness :
    onInitCount 0 (EventBus.publish c3State "c3" (Val.num 5) 10).trace = 1 := by
  have h := (onInit_fires_exactly_once [] c3State "c3" (Val.num 5) none 10 0 c3Chan
    rfl rfl (by decide)).2.2.1
  rw [h]
  decide

/-- C7 (amended).  For a `once` registration: at most one
normally-completing invocation of the underlying listener is ever traced
over any run; if the listener never throws, every invocation completes
normally, so it is invoked at most once in total; and once the wrapper
has recorded a successful execution, it is no longer a member of its
captured listener set (it removed itself).  (The original claim — at
most one invocation unconditionally — fails when the listener throws;
see the counterexample.) -/
theorem once_listener_at_most_one_success (ops : List Op) (r : Nat) (reg : Reg)
    (hreg : alook r (run ops).evs.regsHeap = some reg)
    (honce : reg.opts.once = true) :
    succCount r (run ops).trace ≤ 1
    ∧ ((∀ d, reg.ok d = true) →
        callCount r (run ops).trace = succCount r (run ops).trace
        ∧ callCount r (run ops).trace ≤ 1)
    ∧ (reg.hasExecuted = true → r ∉ (alook reg.setId (run ops).evs.setsHeap).getD []) := by
  have hI := inv_run ops
  have hsc := hI.onceCount r reg hreg honce
  have hle : succCount r (run ops).trace ≤ 1 := by
    rw [hsc]
    split <;> omega
  refine ⟨hle, ?_, ?_⟩
  · intro hok
    have hfc : (run ops).trace.filter (isCallFor r) = (run ops).trace.filter (isSuccFor r) := by
      apply List.filter_congr
      intro x hx
      cases x with
      | warnValidation a b c => simp [isCallFor, isSuccFor]
      | onInitFired a b => simp [isCallFor, isSuccFor]
      | onChangeFired a b c => simp [isCallFor, isSuccFor]
      | onClearFired a => simp [isCallFor, isSuccFor]
      | subscriberCalled a b c => simp [isCallFor, isSuccFor]
      | listenerCalled rr lid d okb =>
        by_cases hr : rr = r
        · subst hr
          have hev := hI.evOk _ hx rr lid d okb rfl reg hreg
          simp [isCallFor, isSuccFor, hev.2, hok d]
        · simp [isCallFor, isSuccFor, hr]
    constructor
    · unfold callCount succCount
      rw [hfc]
    · unfold callCount
      rw [hfc]
      exact hle
  · intro hex
    exact hI.onceRemoved r reg hreg honce hex

def c7ok : Val → Bool := fun _ => true

def c7ops : List Op :=
  [Op.onceOp "e" 7 c7ok, Op.emitOp "e" (Val.num 1) 0, Op.emitOp "e" (Val.num 2) 1]

def c7RegAfter : Reg :=
  { lid := 7, ok := c7ok, opts := { once := true }, eventName := "e", setId := 0,
    hasExecuted := true, lastCallTime := 0, debounceTimer := none }

theorem once_listener_at_most_one_success_witness :
    succCount 0 (run c7ops).trace ≤ 1
    ∧ callCount 0 (run c7ops).trace = succCount 0 (run c7ops).trace
    ∧ 0 ∉ (alook c7RegAfter.setId (run c7ops).evs.setsHeap).getD [] := by
  have h := once_listener_at_most_one_success c7ops 0 c7RegAfter rfl rfl
  exact ⟨h.1, (h.2.1 (fun d => rfl)).1, h.2.2 rfl⟩

/-- The channel record stored back by a publish on a debounce-mode
`onChange` channel: the signal is set and the pending timer captures the
post-transform value and the pre-publish value. -/
def debSched (ch : Channel) (v : Val) (now : Nat) : Channel :=
  { pubChanMid ch v with debTimer := some { fireAt := now + ch.debounceMs, newV := chTransform ch v, oldV := ch.value } }

theorem debSched_config (ch : Channel) (v : Val) (now : Nat) :
    (debSched ch v now).config = ch.config := by
  show (pubChanMid ch v).config = ch.config
  exact pubChanMid_config ch v

theorem debSched_value (ch : Channel) (v : Val) (now : Nat) :
    (debSched ch v now).value = chTransform ch v := by
  show (pubChanMid ch v).value = chTransform ch v
  exact pubChanMid_value ch v

theorem debSched_debTimer (ch : Channel) (v : Val) (now : Nat) :
    (debSched ch v now).debTimer =
      some { fireAt := now + ch.debounceMs, newV := chTransform ch v, oldV := ch.value } := rfl

/-- One publish on a debounce-mode `onChange` channel: no `onChange`
event is appended (the call is deferred); the stored record carries the
restarted timer with the captured pair. -/
theorem publish_debounce_schedules (s : BusState) (n : String) (v : Val) (now id : Nat)
    (ch : Channel)
    (hreg : alook n s.chs.registry = some id) (hch : alook id s.chs.chHeap = some ch)
    (hval : chValidateOk ch v = true) (hOC : ch.hasOnChange = true)
    (hdb : ch.debounceMs ≠ 0) :
    alook id (EventBus.publish s n v now).chs.chHeap = some (debSched ch v now) ∧
    alook n (EventBus.publish s n v now).chs.registry = some id ∧
    onChangeEvents id (EventBus.publish s n v now).trace = onChangeEvents id s.trace ∧
    (EventBus.publish s n v now).evs = s.evs := by
  have hdbM : (pubChanMid ch v).debounceMs ≠ 0 := by
    rw [debounceMs_congr _ _ (pubChanMid_config ch v)]
    exact hdb
  have hexec := execOnChange_debounce id (pubChanMid ch v) (chTransform ch v) ch.value now hdbM
  have hfinal : pubChanFinal id ch v now = debSched ch v now := by
    unfold pubChanFinal debSched
    rw [if_pos hOC, hexec]
    rw [debounceMs_congr _ _ (pubChanMid_config ch v)]
  have hevs : onChangeEvents id (pubEvsOf id ch v now) = [] := by
    unfold pubEvsOf
    rw [if_pos hOC, hexec]
    simp only [onChangeEvents_append]
    have h1 : onChangeEvents id
        (if pubFireInit ch v && ch.hasOnInitHook then [Ev.onInitFired id (chTransform ch v)] else []) = [] := by
      split <;> simp [onChangeEvents, isOnChangeFor]
    have h3 : onChangeEvents id
        (ch.subscribers.map (fun sub => Ev.subscriberCalled id sub (chTransform ch v))) = [] := by
      simp [onChangeEvents, isOnChangeFor]
    rw [h1, h3]
    simp [onChangeEvents]
  rw [publish_eq_core s n v now id ch hreg hch hval, publishCore_eq]
  refine ⟨?_, ?_, ?_, rfl⟩
  · simp [saveToStorage_chHeap, alook_aset_self, hfinal]
  · simp [saveToStorage_registry, hreg]
  · simp [onChangeEvents_append, hevs]

theorem fireChDeb_noop_none (s : BusState) (n : String) (t' id : Nat) (ch : Channel)
    (hreg : alook n s.chs.registry = some id) (hch : alook id s.chs.chHeap = some ch)
    (hdt : ch.debTimer = none) :
    EventBus.fireChDeb s n t' = s := by
  simp [EventBus.fireChDeb, hreg, hch, hdt]

theorem fireChDeb_noop_early (s : BusState) (n : String) (t' id : Nat) (ch : Channel)
    (d : DebEntry)
    (hreg : alook n s.chs.registry = some id) (hch : alook id s.chs.chHeap = some ch)
    (hdt : ch.debTimer = some d) (hlt : t' < d.fireAt) :
    EventBus.fireChDeb s n t' = s := by
  have hnle : ¬ d.fireAt ≤ t' := by omega
  simp [EventBus.fireChDeb, hreg, hch, hdt, hnle]

theorem fireChDeb_fires (s : BusState) (n : String) (t' id : Nat) (ch : Channel) (d : DebEntry)
    (hreg : alook n s.chs.registry = some id) (hch : alook id s.chs.chHeap = some ch)
    (hdt : ch.debTimer = some d) (hge : d.fireAt ≤ t') :
    EventBus.fireChDeb s n t' =
      { s with chs := { s.chs with chHeap := aset id { ch with debTimer := none } s.chs.chHeap },
               trace := s.trace ++ [Ev.onChangeFired id d.newV d.oldV] } := by
  simp [EventBus.fireChDeb, hreg, hch, hdt, hge]

theorem foldl_fire_noop (s : BusState) (n : String) (L : List Nat)
    (h : ∀ t' ∈ L, EventBus.fireChDeb s n t' = s) :
    L.foldl (fun s' t' => EventBus.fireChDeb s' n t') s = s := by
  induction L with
  | nil => rfl
  | cons a L ih =>
    simp only [List.foldl_cons]
    rw [h a (List.mem_cons_self a L)]
    exact ih (fun t' ht' => h t' (List.mem_cons_of_mem a ht'))

/-- One burst element of the debounce scenario: the event loop may
attempt to fire the channel's pending debounce timer at the listed
times, then a publish happens. -/
def debStep (n : String) (s : BusState) (g : Val × Nat × List Nat) : BusState :=
  EventBus.publish (g.2.2.foldl (fun s' t' => EventBus.fireChDeb s' n t') s) n g.1 g.2.1

/-- Run a burst of publishes (with interleaved timer-fire attempts). -/
def debRun (s : BusState) (n : String) (gs : List (Val × Nat × List Nat)) : BusState :=
  gs.foldl (debStep n) s

/-- Accumulator computing (post-transform value of the last publish,
channel value immediately before it, its time) along a burst. -/
def debAcc (ch : Channel) (acc : Val × Val × Nat) (g : Val × Nat × List Nat) : Val × Val × Nat :=
  (chTransform ch g.1, acc.1, g.2.1)

/-- Side condition of the debounce scenario: each publish happens less
than `D` ms after the previous one, and the interleaved fire attempts
happen no later than the publish they precede. -/
def debGapsOk (D : Nat) : Nat → List (Val × Nat × List Nat) → Bool
  | _, [] => true
  | tprev, g :: gs =>
    decide (g.2.1 < tprev + D) && g.2.2.all (fun t' => decide (t' ≤ g.2.1)) && debGapsOk D g.2.1 gs

theorem debRun_pending (n : String) (id D : Nat) (ch : Channel)
    (hOC : ch.hasOnChange = true) (hdb : ch.debounceMs = D) (hD : D ≠ 0) :
    ∀ (gs : List (Val × Nat × List Nat)) (s : BusState) (chk : Channel) (cur old : Val) (tl : Nat),
      alook n s.chs.registry = some id →
      alook id s.chs.chHeap = some chk →
      chk.config = ch.config →
      chk.value = cur →
      chk.debTimer = some { fireAt := tl + D, newV := cur, oldV := old } →
      (∀ p ∈ gs, chValidateOk ch p.1 = true) →
      debGapsOk D tl gs = true →
      ∃ ch',
        alook n (debRun s n gs).chs.registry = some id ∧
        alook id (debRun s n gs).chs.chHeap = some ch' ∧
        ch'.config = ch.config ∧
        ch'.value = (gs.foldl (debAcc ch) (cur, old, tl)).1 ∧
        ch'.debTimer = some { fireAt := (gs.foldl (debAcc ch) (cur, old, tl)).2.2 + D,
                              newV := (gs.foldl (debAcc ch) (cur, old, tl)).1,
                              oldV := (gs.foldl (debAcc ch) (cur, old, tl)).2.1 } ∧
        onChangeEvents id (debRun s n gs).trace = onChangeEvents id s.trace ∧
        (debRun s n gs).evs = s.evs := by
  intro gs
  induction gs with
  | nil =>
    intro s chk cur old tl hreg hch hcfg hv hdt _ _
    exact ⟨chk, hreg, hch, hcfg, hv, hdt, rfl, rfl⟩
  | cons g gs ih =>
    intro s chk cur old tl hreg hch hcfg hv hdt hvals hgaps
    obtain ⟨v, t, fs⟩ := g
    simp only [debGapsOk, Bool.and_eq_true, decide_eq_true_eq, List.all_eq_true] at hgaps
    obtain ⟨⟨hlt, hfs⟩, hgaps'⟩ := hgaps
    have hnofire : ∀ t' ∈ fs, EventBus.fireChDeb s n t' = s := by
      intro t' ht'
      refine fireChDeb_noop_early s n t' id chk
        { fireAt := tl + D, newV := cur, oldV := old } hreg hch hdt ?_
      have h1 := hfs t' ht'
      dsimp only
      omega
    have hfold : fs.foldl (fun s' t' => EventBus.fireChDeb s' n t') s = s :=
      foldl_fire_noop s n fs hnofire
    have hstep : debRun s n ((v, t, fs) :: gs) = debRun (EventBus.publish s n v t) n gs := by
      simp only [debRun, List.foldl_cons, debStep]
      rw [hfold]
    have hvalk : chValidateOk chk v = true := by
      rw [chValidateOk_congr _ _ _ hcfg]
      exact hvals (v, t, fs) (List.mem_cons_self _ _)
    have hOCk : chk.hasOnChange = true := by
      rw [hasOnChange_congr _ _ hcfg]
      exact hOC
    have hdbk : chk.debounceMs = D := by
      rw [debounceMs_congr _ _ hcfg]
      exact hdb
    obtain ⟨hch1, hreg1, htr1, hevs1⟩ :=
      publish_debounce_schedules s n v t id chk hreg hch hvalk hOCk (by rw [hdbk]; exact hD)
    have hcfg1 : (debSched chk v t).config = ch.config := by
      rw [debSched_config]
      exact hcfg
    have hv1 : (debSched chk v t).value = chTransform ch v := by
      rw [debSched_value]
      exact chTransform_congr chk ch v hcfg
    have hdt1 : (debSched chk v t).debTimer =
        some { fireAt := t + D, newV := chTransform ch v, oldV := cur } := by
      rw [debSched_debTimer, hdbk, chTransform_congr chk ch v hcfg, hv]
    have hvals' : ∀ p ∈ gs, chValidateOk ch p.1 = true :=
      fun p hp => hvals p (List.mem_cons_of_mem _ hp)
    obtain ⟨ch', hr', hh', hc', hval', hdt', htr', hevs'⟩ :=
      ih (EventBus.publish s n v t) (debSched chk v t) (chTransform ch v) cur t
        hreg1 hch1 hcfg1 hv1 hdt1 hvals' hgaps'
    refine ⟨ch', ?_, ?_, hc', ?_, ?_, ?_, ?_⟩
    · rw [hstep]
      exact hr'
    · rw [hstep]
      exact hh'
    · simp only [List.foldl_cons, debAcc]
      exact hval'
    · simp only [List.foldl_cons, debAcc]
      exact hdt'
    · rw [hstep, htr', htr1]
    · rw [hstep, hevs', hevs1]

/-- C4.  On a channel configured with `onChange` and `debounce = D`, a
burst of `N ≥ 1` successful publishes each less than `D` ms after the
previous one (with the event loop free to attempt the timer at any
moment up to each publish) delivers no `onChange` during the burst: the
sole pending timer is set to fire `D` ms after the last publish,
capturing the last post-transform value as `newValue` and the channel
value immediately preceding that last publish as `oldValue`; any fire
attempt before that instant is a no-op, and the fire at (or after) it
appends exactly that one `onChange` event and consumes the timer. -/
theorem debounce_coalesces_publishes (s : BusState) (n : String) (id D : Nat) (ch : Channel)
    (v0 : Val) (t0 : Nat) (f0 : List Nat) (gs : List (Val × Nat × List Nat))
    (hreg : alook n s.chs.registry = some id)
    (hch : alook id s.chs.chHeap = some ch)
    (hOC : ch.hasOnChange = true) (hdb : ch.debounceMs = D) (hD : D ≠ 0)
    (hdt : ch.debTimer = none)
    (hval0 : chValidateOk ch v0 = true)
    (hvals : ∀ p ∈ gs, chValidateOk ch p.1 = true)
    (hgaps : debGapsOk D t0 gs = true) :
    ∃ ch',
      alook id (debRun s n ((v0, t0, f0) :: gs)).chs.chHeap = some ch' ∧
      ch'.value = (gs.foldl (debAcc ch) (chTransform ch v0, ch.value, t0)).1 ∧
      ch'.debTimer = some { fireAt := (gs.foldl (debAcc ch) (chTransform ch v0, ch.value, t0)).2.2 + D,
                            newV := (gs.foldl (debAcc ch) (chTransform ch v0, ch.value, t0)).1,
                            oldV := (gs.foldl (debAcc ch) (chTransform ch v0, ch.value, t0)).2.1 } ∧
      onChangeEvents id (debRun s n ((v0, t0, f0) :: gs)).trace = onChangeEvents id s.trace ∧
      (∀ t', t' < (gs.foldl (debAcc ch) (chTransform ch v0, ch.value, t0)).2.2 + D →
        EventBus.fireChDeb (debRun s n ((v0, t0, f0) :: gs)) n t' =
          debRun s n ((v0, t0, f0) :: gs)) ∧
      (∀ t', (gs.foldl (debAcc ch) (chTransform ch v0, ch.value, t0)).2.2 + D ≤ t' →
        onChangeEvents id (EventBus.fireChDeb (debRun s n ((v0, t0, f0) :: gs)) n t').trace =
          onChangeEvents id s.trace ++
            [Ev.onChangeFired id (gs.foldl (debAcc ch) (chTransform ch v0, ch.value, t0)).1
              (gs.foldl (debAcc ch) (chTransform ch v0, ch.value, t0)).2.1] ∧
        alook id (EventBus.fireChDeb (debRun s n ((v0, t0, f0) :: gs)) n t').chs.chHeap =
          some { ch' with debTimer := none }) := by
  have hnofire0 : ∀ t' ∈ f0, EventBus.fireChDeb s n t' = s :=
    fun t' _ => fireChDeb_noop_none s n t' id ch hreg hch hdt
  have hfold0 : f0.foldl (fun s' t' => EventBus.fireChDeb s' n t') s = s :=
    foldl_fire_noop s n f0 hnofire0
  have hstep0 : debRun s n ((v0, t0, f0) :: gs) = debRun (EventBus.publish s n v0 t0) n gs := by
    simp only [debRun, List.foldl_cons, debStep]
    rw [hfold0]
  obtain ⟨hch1, hreg1, htr1, _⟩ :=
    publish_debounce_schedules s n v0 t0 id ch hreg hch hval0 hOC (by rw [hdb]; exact hD)
  have hcfg1 : (debSched ch v0 t0).config = ch.config := debSched_config ch v0 t0
  have hv1 : (debSched ch v0 t0).value = chTransform ch v0 := debSched_value ch v0 t0
  have hdt1 : (debSched ch v0 t0).debTimer =
      some { fireAt := t0 + D, newV := chTransform ch v0, oldV := ch.value } := by
    rw [debSched_debTimer, hdb]
  obtain ⟨ch', hr', hh', hc', hval', hdt', htr', _⟩ :=
    debRun_pending n id D ch hOC hdb hD gs (EventBus.publish s n v0 t0) (debSched ch v0 t0)
      (chTransform ch v0) ch.value t0 hreg1 hch1 hcfg1 hv1 hdt1 hvals hgaps
  have hrF : alook n (debRun s n ((v0, t0, f0) :: gs)).chs.registry = some id := by
    rw [hstep0]
    exact hr'
  have hhF : alook id (debRun s n ((v0, t0, f0) :: gs)).chs.chHeap = some ch' := by
    rw [hstep0]
    exact hh'
  have htrF : onChangeEvents id (debRun s n ((v0, t0, f0) :: gs)).trace =
      onChangeEvents id s.trace := by
    rw [hstep0, htr', htr1]
  refine ⟨ch', hhF, hval', hdt', htrF, ?_, ?_⟩
  · intro t' hlt'
    refine fireChDeb_noop_early _ n t' id ch' _ hrF hhF hdt' ?_
    dsimp only
    omega
  · intro t' hge'
    have hf := fireChDeb_fires (debRun s n ((v0, t0, f0) :: gs)) n t' id ch'
      { fireAt := (gs.foldl (debAcc ch) (chTransform ch v0, ch.value, t0)).2.2 + D,
        newV := (gs.foldl (debAcc ch) (chTransform ch v0, ch.value, t0)).1,
        oldV := (gs.foldl (debAcc ch) (chTransform ch v0, ch.value, t0)).2.1 }
      hrF hhF hdt' hge'
    rw [hf]
    constructor
    · dsimp only
      rw [onChangeEvents_append, htrF]
      simp [onChangeEvents, isOnChangeFor]
    · dsimp only
      exact alook_aset_self _ _ _

/-- Concrete channel used by the C4 witness: `debounce = 100`, `onChange`
configured. -/
def c4Chan : Channel :=
  { id := 0, value := Val.undef, storage := StorageMode.memory, storageKey := "lithium:d",
    subscribers := [], ttl := 0, autoCleanup := false, createdAt := 0,
    config := some { onChange := true, debounce := 100 }, isInitialized := false,
    ttlTimer := none, debTimer := none, onChangeLastCall := 0 }

/-- Concrete bus state used by the C4 witness. -/
def c4State : BusState :=
  { chs := { chHeap := [(0, c4Chan)], registry := [("d", 0)], nextChId := 1,
             sessionStore := [], localStore := [] },
    evs := emptyBus.evs, trace := [] }

/-- Witness for C4: publishes at 1000 and 1050 ms with `debounce = 100`
(and a timer attempt at 1040 between them) fire no `onChange` during the
burst; the fire at 1150 delivers exactly one `onChange` with the second
value and the first value as the preceding one. -/
theorem debounce_coalesces_publishes_witness :
    onChangeEvents 0
        (debRun c4State "d" [(Val.num 1, 1000, []), (Val.num 2, 1050, [1040])]).trace = [] ∧
    onChangeEvents 0
        (EventBus.fireChDeb
          (debRun c4State "d" [(Val.num 1, 1000, []), (Val.num 2, 1050, [1040])]) "d" 1150).trace =
      [Ev.onChangeFired 0 (Val.num 2) (Val.num 1)] := by
  have h := debounce_coalesces_publishes c4State "d" 0 100 c4Chan (Val.num 1) 1000 []
    [(Val.num 2, 1050, [1040])] rfl rfl rfl rfl (by decide) rfl rfl
    (by decide) (by decide)
  obtain ⟨ch', hh, hv, hdt, htr, hearly, hlate⟩ := h
  constructor
  · rw [htr]
    rfl
  · have hl := hlate 1150 (by decide)
    rw [hl.1]
    rfl
